import Mathlib

/-!
# uniswapDemo: pair-address derivation and the swap sequence

A shallow embedding of `cmd/main.go`.  The program derives the CREATE2 address of a
Uniswap-V2 pair, reads the pool reserves, and submits one `swapExactTokensForTokens`
transaction through a wallet object.

Conventions of the embedding:

* a Go `string` and a Go `[]byte` are both `List Byte` (Go strings are byte sequences);
* `*big.Int` is `Int`;
* a Go `error` is `Option GoError` (`none` is `nil`);
* a function with results `(v, err)` returns the pair, as in Go;
* package-level variables that are configuration are fields of `Config`;
  the package-level cache `decodedInitCode` is explicit state;
* Keccak-256 is a parameter `Keccak256 : List Byte → Bytes32`;
* the wallet (`*coin.Wallet`, the RPC client behind it) is a parameter: a record of
  handlers over a mock-chain state `σ`; every call is appended to a trace.
-/

namespace UniswapDemo

/-! ## Bytes, strings, errors -/

/-- One byte. -/
abbrev Byte := Fin 256

/-- Go strings are byte sequences. -/
abbrev GoString := List Byte

/-- UTF-8 encoding of one code point (Go source literals are UTF-8). -/
def utf8Char (c : Char) : List Byte :=
  let n := c.toNat
  if n < 0x80 then [Fin.ofNat n]
  else if n < 0x800 then [Fin.ofNat (0xC0 + n / 64), Fin.ofNat (0x80 + n % 64)]
  else if n < 0x10000 then
    [Fin.ofNat (0xE0 + n / 4096), Fin.ofNat (0x80 + n / 64 % 64), Fin.ofNat (0x80 + n % 64)]
  else
    [Fin.ofNat (0xF0 + n / 262144), Fin.ofNat (0x80 + n / 4096 % 64),
      Fin.ofNat (0x80 + n / 64 % 64), Fin.ofNat (0x80 + n % 64)]

/-- The bytes of a Go string literal. -/
def goString (s : String) : GoString := (s.toList.map utf8Char).flatten

/-- Go error values: the two errors of `encoding/hex`, `errors.New`, the message
wrapper built by `errors.Wrap`, and errors coming back from the wallet. -/
inductive GoError where
  | ErrLength
  | InvalidByteError (b : Byte)
  | New (msg : String)
  | withMessage (cause : GoError) (msg : String)
  | rpc (msg : String)
deriving DecidableEq, Repr

/-- `errors.Wrap` of github.com/pkg/errors: wrapping `nil` gives `nil`. -/
def errorsWrap (err : Option GoError) (message : String) : Option GoError :=
  match err with
  | none => none
  | some e => some (GoError.withMessage e message)

/-- 32 bytes, the result type of Keccak-256. -/
structure Bytes32 where
  bytes : List Byte
  size : bytes.length = 32
deriving DecidableEq

/-! ## encoding/hex and go-ethereum `common` -/

/-- `reverseHexTable` of encoding/hex: the value of a hex digit, `0xff` for any other byte. -/
def reverseHexTable (c : Byte) : Nat :=
  if 48 ≤ c.val ∧ c.val ≤ 57 then c.val - 48
  else if 97 ≤ c.val ∧ c.val ≤ 102 then c.val - 87
  else if 65 ≤ c.val ∧ c.val ≤ 70 then c.val - 55
  else 0xff

/-- `hex.DecodeString`: decodes pairs of hex digits; on malformed input returns the
bytes decoded before the error, and the error. -/
def hexDecodeString : GoString → List Byte × Option GoError
  | [] => ([], none)
  | [p] =>
    if reverseHexTable p > 0x0f then ([], some (GoError.InvalidByteError p))
    else ([], some GoError.ErrLength)
  | p :: q :: rest =>
    let a := reverseHexTable p
    let b := reverseHexTable q
    if a > 0x0f then ([], some (GoError.InvalidByteError p))
    else if b > 0x0f then ([], some (GoError.InvalidByteError q))
    else
      let r := hexDecodeString rest
      (Fin.ofNat (a * 16 + b) :: r.1, r.2)

/-- `has0xPrefix` of go-ethereum common. -/
def has0xPrefix (str : GoString) : Bool :=
  match str with
  | c0 :: c1 :: _ => c0 = 48 && (c1 = 120 || c1 = 88)
  | _ => false

/-- `common.Hex2Bytes`: the decoder's error is dropped. -/
def Hex2Bytes (str : GoString) : List Byte := (hexDecodeString str).1

/-- `common.FromHex`: optional `0x`, an odd-length string gets a leading `0`. -/
def FromHex (s : GoString) : List Byte :=
  let s := if has0xPrefix s then s.drop 2 else s
  let s := if s.length % 2 = 1 then (48 : Byte) :: s else s
  Hex2Bytes s

/-- The length of a go-ethereum address. -/
def AddressLength : Nat := 20

/-- `common.Address`, a 20-byte array. -/
structure Address where
  bytes : List Byte
  size : bytes.length = 20
deriving DecidableEq

/-- The zero value of `common.Address`. -/
def Address.zero : Address := ⟨List.replicate 20 0, by simp⟩

/-- `Address.Bytes`. -/
def Address.Bytes (a : Address) : List Byte := a.bytes

/-- The first statement of `Address.SetBytes`: a longer input is cut to its last 20 bytes. -/
def cropToAddress (b : List Byte) : List Byte :=
  if b.length > AddressLength then b.drop (b.length - AddressLength) else b

/-- `common.BytesToAddress`: keeps the last 20 bytes of a longer input and
left-pads a shorter one with zero bytes. -/
def BytesToAddress (b : List Byte) : Address :=
  ⟨List.replicate (AddressLength - (cropToAddress b).length) 0 ++ cropToAddress b, by
    have h : (cropToAddress b).length ≤ 20 := by
      unfold cropToAddress AddressLength
      split
      · simp only [List.length_drop]; omega
      · omega
    simp only [List.length_append, List.length_replicate, AddressLength]
    omega⟩

/-- `common.HexToAddress`. -/
def HexToAddress (s : GoString) : Address := BytesToAddress (FromHex s)

/-- The lower-case hex digit of a nibble (`hextable` of encoding/hex). -/
def hextable (n : Nat) : Byte :=
  if n < 10 then Fin.ofNat (48 + n) else Fin.ofNat (87 + n)

/-- `hex.Encode`. -/
def hexEncode : List Byte → GoString
  | [] => []
  | b :: bs => hextable (b.val / 16) :: hextable (b.val % 16) :: hexEncode bs

/-- The nibbles of a byte string, high nibble first. -/
def nibbles : List Byte → List Nat
  | [] => []
  | b :: bs => (b.val / 16) :: (b.val % 16) :: nibbles bs

/-- One step of the loop of `checksumHex`: a letter digit is upper-cased when the
matching nibble of the hash exceeds 7. -/
def checksumCase (c : Byte) (hashNibble : Nat) : Byte :=
  if c.val > 57 ∧ hashNibble > 7 then Fin.ofNat (c.val - 32) else c

/-- `Address.Hex` (also `Address.String`): the EIP-55 checksummed hex form. -/
def Address.Hex (Keccak256 : List Byte → Bytes32) (a : Address) : GoString :=
  let buf := hexEncode a.bytes
  let hash := (Keccak256 buf).bytes
  (48 : Byte) :: (120 : Byte) :: List.zipWith checksumCase buf (nibbles hash)

/-! ## math/big -/

/-- The natural number spelled big-endian by a byte string. -/
def beValue (buf : List Byte) : Nat := buf.foldl (fun acc b => acc * 256 + b.val) 0

/-- `big.Int.SetBytes`: the big-endian unsigned value of a byte string. -/
def bigSetBytes (buf : List Byte) : Int := (beValue buf : Int)

/-- `big.Int.SetString(s, 16)` on a string of hex digits. -/
def bigSetString16 (s : GoString) : Int :=
  ((s.foldl (fun acc c => acc * 16 + reverseHexTable c) 0 : Nat) : Int)

/-- `big.Int.Abs`. -/
def bigAbs (x : Int) : Int := (x.natAbs : Int)

/-- `big.Int.Bytes`: the big-endian bytes of the absolute value, without leading zeros
(the empty string for zero). -/
def bigBytes (x : Int) : List Byte :=
  ((Nat.digits 256 x.natAbs).reverse).map Fin.ofNat

/-- `big.Int.Cmp`. -/
def bigCmp (x y : Int) : Int :=
  if x < y then -1 else if x = y then 0 else 1

/-! ## Pair-address derivation -/

/-- The hex literal of the init-code hash in `GetCreate2Address`. -/
def initCodeHashHex : GoString :=
  goString "96e8ac4277198ff8b6f785478aa9a39f403cb768dd02cbee326c3e7da348845f"

/-- The 32 bytes spelled by `initCodeHashHex`. -/
def initCodeHash : List Byte :=
  [0x96, 0xe8, 0xac, 0x42, 0x77, 0x19, 0x8f, 0xf8, 0xb6, 0xf7, 0x85, 0x47, 0x8a, 0xa9, 0xa3, 0x9f,
   0x40, 0x3c, 0xb7, 0x68, 0xdd, 0x02, 0xcb, 0xee, 0x32, 0x6c, 0x3e, 0x7d, 0xa3, 0x48, 0x84, 0x5f]

/-- `sortAddressess`: ascending by big-endian value. -/
def sortAddressess (token0 token1 : Address) : Address × Address :=
  let token0Rep := bigSetBytes token0.Bytes
  let token1Rep := bigSetBytes token1.Bytes
  if bigCmp token0Rep token1Rep > 0 then (token1, token0) else (token0, token1)

/-- The last four statements of `GetCreate2Address`, after the cache is filled. -/
def create2Finish (Keccak256 : List Byte → Bytes32) (msg decodedInitCode : List Byte) :
    Address :=
  let msg := msg ++ decodedInitCode
  let hash := (Keccak256 msg).bytes
  let pairAddressBytes := bigSetBytes hash
  let pairAddressBytes := bigAbs pairAddressBytes
  BytesToAddress (bigBytes pairAddressBytes)

/-- `GetCreate2Address`.  `DecodeString` is the hex decoder it calls and
`decodedInitCode` the package-level cache on entry; the result is the Go result pair
`(pairAddress, err)` and the cache on exit. -/
def GetCreate2Address (Keccak256 : List Byte → Bytes32)
    (DecodeString : GoString → List Byte × Option GoError)
    (decodedInitCode : List Byte) (factory tokenA tokenB : GoString) :
    (Address × Option GoError) × List Byte :=
  -- named results start at their zero values
  let pairAddress : Address := Address.zero
  let err : Option GoError := none
  let factoryAddr := HexToAddress factory
  let tkns := sortAddressess (HexToAddress tokenA) (HexToAddress tokenB)
  let tkn0 := tkns.1
  let tkn1 := tkns.2
  let msg : List Byte := [255]
  let msg := msg ++ factoryAddr.Bytes
  let addrBytes := tkn0.Bytes
  let addrBytes := addrBytes ++ tkn1.Bytes
  let msg := msg ++ (Keccak256 addrBytes).bytes
  if decodedInitCode.length = 0 then
    match DecodeString initCodeHashHex with
    | (_, some _err1) =>
      -- `err = errors.Wrap(err, ...)` wraps the named result `err`, not `err1`
      let err := errorsWrap err "decode init code hash"
      ((pairAddress, err), decodedInitCode)
    | (b, none) =>
      let decodedInitCode := b
      ((create2Finish Keccak256 msg decodedInitCode, none), decodedInitCode)
  else
    ((create2Finish Keccak256 msg decodedInitCode, none), decodedInitCode)

/-! ## go-decimal -/

/-- A decimal number `value * 10 ^ exp`, the representation of shopspring/decimal that
go-decimal wraps.  All operations the program uses are exact. -/
structure Decimal where
  value : Int
  exp : Int
deriving DecidableEq, Repr

/-- The string written by `EndForString`.  The digits are not spelled out: the string is
kept as the decimal it denotes, which is what `Decimal.Start` of that string reads back. -/
structure DecimalString where
  denotes : Decimal
deriving DecidableEq, Repr

namespace Decimal

/-- `Decimal.Start` of an integer (`int` or `*big.Int`). -/
def Start (a : Int) : Decimal := ⟨a, 0⟩

/-- `Decimal.Start` of a string written by `EndForString`. -/
def StartString (a : DecimalString) : Decimal := a.denotes

/-- `MustShiftedBy`: multiply by `10 ^ n`. -/
def MustShiftedBy (d : Decimal) (n : Int) : Decimal := ⟨d.value, d.exp + n⟩

/-- `MustUnShiftedBy`: divide by `10 ^ n`. -/
def MustUnShiftedBy (d : Decimal) (n : Int) : Decimal := ⟨d.value, d.exp - n⟩

/-- `EndForString`. -/
def EndForString (d : Decimal) : DecimalString := ⟨d⟩

/-- `EndForBigInt`.  Both uses in the program apply it to an integer shifted up by a
number of decimals, where the exponent is non-negative and the value is exact; for a
negative exponent the model takes the integer part. -/
def EndForBigInt (d : Decimal) : Int :=
  if 0 ≤ d.exp then d.value * 10 ^ d.exp.toNat else Int.tdiv d.value (10 ^ (-d.exp).toNat)

/-- `Cmp` of shopspring/decimal: both sides are rescaled to the smaller exponent and the
integer coefficients are compared. -/
def Cmp (d d2 : Decimal) : Int :=
  let e := min d.exp d2.exp
  bigCmp (d.value * 10 ^ (d.exp - e).toNat) (d2.value * 10 ^ (d2.exp - e).toNat)

/-- `Lte` against an integer. -/
def Lte (d : Decimal) (a : Int) : Bool := decide (Cmp d (Start a) ≤ 0)

/-- The rational number a decimal denotes. -/
def toRat (d : Decimal) : ℚ := (d.value : ℚ) * (10 : ℚ) ^ d.exp

end Decimal

/-! ## Configuration: the package-level variables -/

/-- `maxApprove`. -/
def maxApprove : Int :=
  bigSetString16 (goString "ffffffffffffffffffffffffffffffffffffffffffffffffffffffffffffffff")

/-- The package-level variables a user of the program edits. -/
structure Config where
  swapExactTokensForTokensMethodID : GoString
  rpcURL : GoString
  uniRouterContractAddress : GoString
  wEthContractAddress : Address
  factory : GoString
  tokenA : Address
  decimalTokenA : Int
  spendTokenA : Int
  tokenB : Address
  decimalTokenB : Int
  amountOutMin : Int
  addr : GoString
  pKey : GoString

/-- `amountTokenA`, computed from `spendTokenA` and `decimalTokenA` at start-up. -/
def Config.amountTokenA (cfg : Config) : Int :=
  ((Decimal.Start cfg.spendTokenA).MustShiftedBy cfg.decimalTokenA).EndForBigInt

/-- The values written in the source. -/
def sourceConfig : Config where
  swapExactTokensForTokensMethodID := goString "0x38ed1739"
  rpcURL := goString ""
  uniRouterContractAddress := goString "0x7a250d5630B4cF539739dF2C5dAcb4c659F2488D"
  wEthContractAddress := HexToAddress (goString "0xc778417e063141139fce010982780140aa0cd5ab")
  factory := goString "0x5c69bee701ef814a2b6a3edd4b1652cb9cc5aa6f"
  tokenA := HexToAddress (goString "0xc7ad46e0b8a400bb3c915120d284aafba8fc4735")
  decimalTokenA := 18
  spendTokenA := 1000000
  tokenB := HexToAddress (goString "0xd1822505796C4eba9379D5a8B4141573444042c6")
  decimalTokenB := 18
  amountOutMin := 10
  addr := goString ""
  pKey := goString ""

/-! ## The wallet and the run-time state -/

/-- Values passed to and returned from contract calls. -/
inductive AbiValue where
  | bigInt (v : Int)
  | address (a : Address)
  | addressArr (path : List Address)
  | other (goType : String)
deriving DecidableEq

/-- The two ABI documents the program passes to the wallet. -/
inductive AbiDoc where
  | Erc20AbiStr
  | getReservesAbi
deriving DecidableEq, Repr

/-- `coin.CallMethodOpts`. -/
structure CallMethodOpts where
  Nonce : Nat
  GasPrice : Int
  GasLimit : Nat
deriving DecidableEq, Repr

/-- A call of a wallet method, with its arguments (timeouts and intervals in seconds). -/
inductive WalletOp where
  | InitRemote (rpcUrl : GoString)
  | SuggestGasPrice
  | Balance (address : GoString)
  | TokenBalance (contractAddress address : GoString)
  | CallContractConstant (contractAddress : GoString) (abiStr : AbiDoc) (methodName : String)
      (timeout : Option Nat) (params : List AbiValue)
  | NonceAt (timeout : Nat) (account : Address)
  | PackParams (values : List AbiValue)
  | BuildCallMethodTx (privateKey contractAddress : GoString) (abiStr : AbiDoc)
      (methodName : String) (opts : CallMethodOpts) (params : List AbiValue)
  | BuildCallMethodTxWithPayload (privateKey contractAddress payload : GoString)
      (opts : CallMethodOpts)
  | SendRawTransaction (txHex : GoString)
  | WaitConfirm (txHash : GoString) (interval : Nat)
deriving DecidableEq

/-- The Go name of the method called. -/
def WalletOp.name : WalletOp → String
  | .InitRemote _ => "InitRemote"
  | .SuggestGasPrice => "SuggestGasPrice"
  | .Balance _ => "Balance"
  | .TokenBalance _ _ => "TokenBalance"
  | .CallContractConstant _ _ _ _ _ => "CallContractConstant"
  | .NonceAt _ _ => "NonceAt"
  | .PackParams _ => "PackParams"
  | .BuildCallMethodTx _ _ _ _ _ _ => "BuildCallMethodTx"
  | .BuildCallMethodTxWithPayload _ _ _ _ => "BuildCallMethodTxWithPayload"
  | .SendRawTransaction _ => "SendRawTransaction"
  | .WaitConfirm _ _ => "WaitConfirm"

/-- One entry of the trace: the call, and whether it came back with an error. -/
structure Call where
  op : WalletOp
  failed : Bool
deriving DecidableEq

/-- An argument of a logger call. -/
inductive LogArg where
  | text (s : String)
  | goStr (s : GoString)
  | error (e : GoError)
  | bigInt (v : Int)
  | uint (n : Nat)
  | decimal (s : DecimalString)
  /-- the method value `x.EndForString`, a `func() string` that was not called;
  the `%s` verb prints its code address, not the decimal -/
  | methodValue (receiver : Decimal)
deriving DecidableEq

/-- The decimal a logger argument shows, if it shows one. -/
def LogArg.shown : LogArg → Option Decimal
  | .decimal s => some s.denotes
  | _ => none

/-- Log levels used by the program. -/
inductive Level where
  | Info
  | Error
deriving DecidableEq, Repr

/-- One logger call: `Info`/`Error` have no format, `InfoF` has one. -/
structure LogEntry where
  level : Level
  format : Option String
  args : List LogArg
deriving DecidableEq

/-- The wallet object and the chain behind it, as handlers over a mock state `σ`.
A handler returns the reply and the next state. -/
structure Wallet (σ : Type) where
  initRemote : GoString → σ → Option GoError × σ
  suggestGasPrice : σ → Except GoError Int × σ
  balance : GoString → σ → Except GoError Int × σ
  tokenBalance : GoString → GoString → σ → Except GoError Int × σ
  callContractConstant :
    GoString → AbiDoc → String → Option Nat → List AbiValue → σ →
      Except GoError (List AbiValue) × σ
  nonceAt : Nat → Address → σ → Except GoError Nat × σ
  packParams : List AbiValue → σ → Except GoError GoString × σ
  buildCallMethodTx :
    GoString → GoString → AbiDoc → String → CallMethodOpts → List AbiValue → σ →
      Except GoError GoString × σ
  buildCallMethodTxWithPayload :
    GoString → GoString → GoString → CallMethodOpts → σ → Except GoError GoString × σ
  sendRawTransaction : GoString → σ → Except GoError GoString × σ
  /-- `none`: the transaction is never mined and the polling loop does not end -/
  waitConfirm : GoString → Nat → σ → Option σ
  /-- `time.Now().Unix()` -/
  now : σ → Int

/-- Everything a run can change: the chain, the trace of wallet calls, the log, and
the package-level cache `decodedInitCode`. -/
structure World (σ : Type) where
  chain : σ
  calls : List Call
  logs : List LogEntry
  decodedInitCode : List Byte

/-- The state at program start. -/
def World.start {σ : Type} (s : σ) : World σ := ⟨s, [], [], []⟩

/-- How a piece of the program ends: it returns, it panics (the process dies), or it
blocks for ever in a confirmation wait. -/
inductive Outcome (σ α : Type) where
  | returned (a : α) (w : World σ)
  | panicked (w : World σ)
  | blocked (w : World σ)

/-- The state at the end. -/
def Outcome.world {σ α : Type} : Outcome σ α → World σ
  | .returned _ w => w
  | .panicked w => w
  | .blocked w => w

/-- A piece of the program. -/
def Prog (σ α : Type) : Type := World σ → Outcome σ α

namespace Prog

/-- Return a value. -/
def ret {σ α : Type} (a : α) : Prog σ α := fun w => .returned a w

/-- Sequencing: a panic or a blocked wait ends the run. -/
def andThen {σ α β : Type} (p : Prog σ α) (f : α → Prog σ β) : Prog σ β := fun w =>
  match p w with
  | .returned a w1 => f a w1
  | .panicked w1 => .panicked w1
  | .blocked w1 => .blocked w1

instance {σ : Type} : Monad (Prog σ) where
  pure := ret
  bind := andThen

/-- A run-time panic. -/
def panic {σ α : Type} : Prog σ α := fun w => .panicked w

/-- A logger call. -/
def log {σ : Type} (level : Level) (format : Option String) (args : List LogArg) :
    Prog σ Unit :=
  fun w => .returned () { w with logs := w.logs ++ [⟨level, format, args⟩] }

/-- A wallet call that yields a value or an error; it is appended to the trace. -/
def call {σ α : Type} (op : WalletOp) (handler : σ → Except GoError α × σ) :
    Prog σ (Except GoError α) := fun w =>
  let r := handler w.chain
  .returned r.1
    { w with chain := r.2, calls := w.calls ++ [⟨op, match r.1 with | .error _ => true | .ok _ => false⟩] }

end Prog

/-- `logger.Logger.Info`. -/
def Info {σ : Type} (args : List LogArg) : Prog σ Unit := Prog.log .Info none args

/-- `logger.Logger.InfoF`. -/
def InfoF {σ : Type} (format : String) (args : List LogArg) : Prog σ Unit :=
  Prog.log .Info (some format) args

/-- `logger.Logger.Error`. -/
def Error {σ : Type} (args : List LogArg) : Prog σ Unit := Prog.log .Error none args

namespace Wallet

variable {σ : Type} (wallet : Wallet σ)

/-- `coin.NewWallet().InitRemote`. -/
def InitRemote (rpcUrl : GoString) : Prog σ (Option GoError) := fun w =>
  let r := wallet.initRemote rpcUrl w.chain
  .returned r.1 { w with chain := r.2, calls := w.calls ++ [⟨.InitRemote rpcUrl, r.1.isSome⟩] }

/-- `wallet.SuggestGasPrice`. -/
def SuggestGasPrice : Prog σ (Except GoError Int) :=
  Prog.call .SuggestGasPrice wallet.suggestGasPrice

/-- `wallet.Balance`. -/
def Balance (address : GoString) : Prog σ (Except GoError Int) :=
  Prog.call (.Balance address) (wallet.balance address)

/-- `wallet.TokenBalance`. -/
def TokenBalance (contractAddress address : GoString) : Prog σ (Except GoError Int) :=
  Prog.call (.TokenBalance contractAddress address) (wallet.tokenBalance contractAddress address)

/-- `wallet.CallContractConstant`. -/
def CallContractConstant (contractAddress : GoString) (abiStr : AbiDoc) (methodName : String)
    (timeout : Option Nat) (params : List AbiValue) : Prog σ (Except GoError (List AbiValue)) :=
  Prog.call (.CallContractConstant contractAddress abiStr methodName timeout params)
    (wallet.callContractConstant contractAddress abiStr methodName timeout params)

/-- `wallet.RemoteRpcClient.NonceAt` under a context with a timeout. -/
def NonceAt (timeout : Nat) (account : Address) : Prog σ (Except GoError Nat) :=
  Prog.call (.NonceAt timeout account) (wallet.nonceAt timeout account)

/-- `wallet.PackParams`. -/
def PackParams (values : List AbiValue) : Prog σ (Except GoError GoString) :=
  Prog.call (.PackParams values) (wallet.packParams values)

/-- `wallet.BuildCallMethodTx`; the value is the `TxHex` of the built transaction. -/
def BuildCallMethodTx (privateKey contractAddress : GoString) (abiStr : AbiDoc)
    (methodName : String) (opts : CallMethodOpts) (params : List AbiValue) :
    Prog σ (Except GoError GoString) :=
  Prog.call (.BuildCallMethodTx privateKey contractAddress abiStr methodName opts params)
    (wallet.buildCallMethodTx privateKey contractAddress abiStr methodName opts params)

/-- `wallet.BuildCallMethodTxWithPayload`; the value is the `TxHex`. -/
def BuildCallMethodTxWithPayload (privateKey contractAddress payload : GoString)
    (opts : CallMethodOpts) : Prog σ (Except GoError GoString) :=
  Prog.call (.BuildCallMethodTxWithPayload privateKey contractAddress payload opts)
    (wallet.buildCallMethodTxWithPayload privateKey contractAddress payload opts)

/-- `wallet.SendRawTransaction`. -/
def SendRawTransaction (txHex : GoString) : Prog σ (Except GoError GoString) :=
  Prog.call (.SendRawTransaction txHex) (wallet.sendRawTransaction txHex)

/-- `wallet.WaitConfirm`: returns once the transaction is mined, otherwise never. -/
def WaitConfirm (txHash : GoString) (interval : Nat) : Prog σ Unit := fun w =>
  match wallet.waitConfirm txHash interval w.chain with
  | some s => .returned () { w with chain := s, calls := w.calls ++ [⟨.WaitConfirm txHash interval, false⟩] }
  | none => .blocked { w with calls := w.calls ++ [⟨.WaitConfirm txHash interval, false⟩] }

/-- `time.Now().Unix()`. -/
def Now : Prog σ Int := fun w => .returned (wallet.now w.chain) w

end Wallet

/-! ## The program -/

section Program

variable {σ : Type}

/-- `GetCreate2Address` run on the package-level cache of the current state, with the
hex decoder of the standard library. -/
def GetCreate2AddressM (Keccak256 : List Byte → Bytes32) (factory tokenA tokenB : GoString) :
    Prog σ (Address × Option GoError) := fun w =>
  let r := GetCreate2Address Keccak256 hexDecodeString w.decodedInitCode factory tokenA tokenB
  .returned r.1 { w with decodedInitCode := r.2 }

/-- `getReserves`.  The two type assertions on `res[0]` and `res[1]` are unchecked:
a reply of another shape panics. -/
def getReserves (wallet : Wallet σ) (pairAddress : GoString) :
    Prog σ (Except GoError (Int × Int)) := do
  let res ← wallet.CallContractConstant pairAddress .getReservesAbi "getReserves" (some 5) []
  match res with
  | .error err => pure (.error (GoError.withMessage err "call contract"))
  | .ok (.bigInt tkn0Amount :: .bigInt tkn1Amount :: _) => pure (.ok (tkn0Amount, tkn1Amount))
  | .ok _ => Prog.panic

/-- `queryTokensAmountInLp`. -/
def queryTokensAmountInLp (Keccak256 : List Byte → Bytes32) (cfg : Config)
    (wallet : Wallet σ) : Prog σ Unit := do
  let r ← GetCreate2AddressM Keccak256 cfg.factory (cfg.tokenA.Hex Keccak256)
    (cfg.tokenB.Hex Keccak256)
  match r with
  | (_, some err) => Error [.error err]
  | (paireAddr, none) =>
    let res ← getReserves wallet (paireAddr.Hex Keccak256)
    match res with
    | .error err => Error [.error err]
    | .ok (tkn0Amount, tkn1Amount) =>
      if bigCmp (bigSetBytes cfg.tokenA.Bytes) (bigSetBytes cfg.tokenB.Bytes) > 0 then
        InfoF "in liquid pool tokenA amount is: %s, tokenB amount is: %s\n"
          [.methodValue ((Decimal.Start tkn1Amount).MustUnShiftedBy cfg.decimalTokenA),
           .decimal ((Decimal.Start tkn0Amount).MustUnShiftedBy cfg.decimalTokenB).EndForString]
      else
        InfoF "in liquid pool tokenA amount is: %s, tokenB amount is: %s\n"
          [.decimal ((Decimal.Start tkn0Amount).MustUnShiftedBy cfg.decimalTokenA).EndForString,
           .decimal ((Decimal.Start tkn1Amount).MustUnShiftedBy cfg.decimalTokenB).EndForString]

/-- `getAddressBalance`. -/
def getAddressBalance (wallet : Wallet σ) (address contractAddress : GoString) :
    Prog σ (Except GoError (Int × Int)) := do
  let r ← wallet.Balance address
  match r with
  | .error err => pure (.error (GoError.withMessage err "get eth balance"))
  | .ok ethAmount =>
    let r ← wallet.TokenBalance contractAddress address
    match r with
    | .error err => pure (.error (GoError.withMessage err "get token balance"))
    | .ok tokenAmount => pure (.ok (ethAmount, tokenAmount))

/-- `checkApproved`.  `res[0]` on an empty reply panics; the type assertion is checked. -/
def checkApproved (wallet : Wallet σ) (address uniRouterAddress contractAddress : GoString) :
    Prog σ (Except GoError Bool) := do
  let r ← wallet.CallContractConstant contractAddress .Erc20AbiStr "allowance" none
    [.address (HexToAddress address), .address (HexToAddress uniRouterAddress)]
  match r with
  | .error err => pure (.error (GoError.withMessage err "get approve"))
  | .ok [] => Prog.panic
  | .ok (.bigInt approved :: _) =>
    InfoF "approved amount is: %s, maxApprove is: %s" [.bigInt approved, .bigInt maxApprove]
    pure (.ok (bigCmp approved maxApprove != -1))
  | .ok (_ :: _) => pure (.error (GoError.New "approve amount is not *big.Int"))

/-- `approve`.  The result of `errors.Wrap` is discarded; the error goes back unwrapped. -/
def approve (wallet : Wallet σ) (pKey tokenAddress spendAddress : GoString) (gasPrice : Int)
    (nonce gasLimit : Nat) : Prog σ (Except GoError GoString) := do
  let opts : CallMethodOpts := ⟨nonce, gasPrice, gasLimit⟩
  let r ← wallet.BuildCallMethodTx pKey tokenAddress .Erc20AbiStr "approve" opts
    [.address (HexToAddress spendAddress), .bigInt maxApprove]
  match r with
  | .error err => pure (.error err)
  | .ok txHex => wallet.SendRawTransaction txHex

/-- `swapExactTokensForTokens`. -/
def swapExactTokensForTokens (cfg : Config) (pKey : GoString) (wallet : Wallet σ)
    (gasPrice : Int) (nonce gasLimit : Nat) : Prog σ (Except GoError GoString) := do
  let now ← wallet.Now
  let deadline : Int := now + 10 * 60
  let path : List Address := [cfg.tokenA, cfg.tokenB]
  let amountOutMinWithDecimal :=
    ((Decimal.Start cfg.amountOutMin).MustShiftedBy cfg.decimalTokenB).EndForBigInt
  let r ← wallet.PackParams
    [.bigInt cfg.amountTokenA, .bigInt amountOutMinWithDecimal, .addressArr path,
     .address (HexToAddress cfg.addr), .bigInt deadline]
  match r with
  | .error err => pure (.error (GoError.withMessage err "packed params to string"))
  | .ok params =>
    let opts : CallMethodOpts := ⟨nonce, gasPrice, gasLimit⟩
    let r ← wallet.BuildCallMethodTxWithPayload pKey cfg.uniRouterContractAddress
      (cfg.swapExactTokensForTokensMethodID ++ params) opts
    match r with
    | .error err => pure (.error (GoError.withMessage err "build contract transaction "))
    | .ok txHex => wallet.SendRawTransaction txHex

/-- The statements of `swap` that follow the approval block (source lines 167 to 189):
gas price, nonce, submission of the swap, confirmation wait. -/
def swapSubmit (cfg : Config) (wallet : Wallet σ) (gasLimit : Nat) : Prog σ Unit := do
  let r ← wallet.SuggestGasPrice
  match r with
  | .error err => Error [.error err]
  | .ok gasPrice =>
    Info [.text "推荐gasPrice为: ", .bigInt gasPrice]
    let r ← wallet.NonceAt 5 (HexToAddress cfg.addr)
    match r with
    | .error err => Error [.text "get nonce err: ", .error err]
    | .ok nonce =>
      Info [.text "start swap, current nonce: ", .uint nonce]
      let r ← swapExactTokensForTokens cfg cfg.pKey wallet gasPrice nonce gasLimit
      match r with
      | .error err => Error [.error err]
      | .ok txHash =>
        wallet.WaitConfirm txHash 1
        InfoF "swap transaction is packed, tx hash:%s \n" [.goStr txHash]

/-- The statements of `swap` from the allowance check on (source lines 136 to 189).
A `return` inside the approval block leaves `swap`. -/
def swapFromAllowance (Keccak256 : List Byte → Bytes32) (cfg : Config) (wallet : Wallet σ)
    (gasPrice : Int) (gasLimit : Nat) : Prog σ Unit := do
  let r ← checkApproved wallet cfg.addr cfg.uniRouterContractAddress (cfg.tokenA.Hex Keccak256)
  match r with
  | .error err => Error [.text "check approved failed: ", .error err]
  | .ok isApproved =>
    if !isApproved then
      Info [.text "未授权router合约, 正在授权..."]
      let r ← wallet.NonceAt 5 (HexToAddress cfg.addr)
      match r with
      | .error err => Error [.text "get nonce err: ", .error err]
      | .ok nonce =>
        Info [.text "current nonce is: ", .uint nonce]
        Info [.text "start approve"]
        let r ← approve wallet cfg.pKey (cfg.tokenA.Hex Keccak256)
          cfg.uniRouterContractAddress gasPrice nonce gasLimit
        match r with
        | .error err => Error [.text "approve failed: ", .error err]
        | .ok txHash =>
          wallet.WaitConfirm txHash 1
          Info [.text "approve transaction is packed"]
          swapSubmit cfg wallet gasLimit
    else swapSubmit cfg wallet gasLimit

/-- `swap`: the reads and the two guards (source lines 103 to 134), then
`swapFromAllowance`. -/
def swap (Keccak256 : List Byte → Bytes32) (cfg : Config) (wallet : Wallet σ) :
    Prog σ Unit := do
  let gasLimit : Nat := 300000
  let r ← wallet.SuggestGasPrice
  match r with
  | .error err => Error [.error err]
  | .ok gasPrice =>
    Info [.text "推荐gasPrice为: ", .bigInt gasPrice]
    Info [.text "get address balance"]
    let r ← getAddressBalance wallet cfg.addr (cfg.tokenA.Hex Keccak256)
    match r with
    | .error err => Error [.text "get address balance error: ", .error err]
    | .ok (ethAmount, tokenAmount) =>
      let tokenAmountWithoutDecimal :=
        ((Decimal.Start tokenAmount).MustUnShiftedBy cfg.decimalTokenA).EndForString
      if (Decimal.StartString tokenAmountWithoutDecimal).Lte 0 then
        Error [.text "address tokenA amount is: 0"]
      else if bigCmp ethAmount (gasPrice * ((gasLimit * 2 : Nat) : Int)) = -1 then
        Error [.text "地址eth余额不够支付手续费"]
      else
        InfoF "address: %s eth amount is: %s, token amount is: %s"
          [.goStr cfg.addr,
           .decimal ((Decimal.Start ethAmount).MustUnShiftedBy 18).EndForString,
           .decimal tokenAmountWithoutDecimal]
        swapFromAllowance Keccak256 cfg wallet gasPrice gasLimit

/-- `main`.  `queryTokensAmountInLp` and `swap` have no results, so `main` goes from
one to the next whatever happened inside.  `wallet.SetLogger` has no effect on the state
modelled here. -/
def main (Keccak256 : List Byte → Bytes32) (cfg : Config) (wallet : Wallet σ) :
    Prog σ Unit := do
  let err ← wallet.InitRemote cfg.rpcURL
  match err with
  | some err => Error [.error err]
  | none =>
    Info [.text ">>>>>>>> before swap"]
    queryTokensAmountInLp Keccak256 cfg wallet
    Info [.text ">>>>>>>> start swap"]
    swap Keccak256 cfg wallet
    Info [.text ">>>>>>>> after swap"]
    queryTokensAmountInLp Keccak256 cfg wallet

end Program

/-! ## The derivation as the specification words it -/

/-- The last `n` bytes of a byte string. -/
def lowBytes (n : Nat) (l : List Byte) : List Byte := l.drop (l.length - n)

/-- The message that is hashed: `0xFF`, the factory, the hash of the two tokens, the
init-code hash. -/
def create2Message (Keccak256 : List Byte → Bytes32) (factory token0 token1 : Address) :
    List Byte :=
  [(0xFF : Byte)] ++ factory.bytes ++ (Keccak256 (token0.bytes ++ token1.bytes)).bytes
    ++ initCodeHash

/-- The pair address of the specification: the tokens in ascending order of their
big-endian value, the low 20 bytes of the hash of the message. -/
def derive (Keccak256 : List Byte → Bytes32) (factory tokenA tokenB : Address) : List Byte :=
  let token0 := if beValue tokenA.bytes ≤ beValue tokenB.bytes then tokenA else tokenB
  let token1 := if beValue tokenA.bytes ≤ beValue tokenB.bytes then tokenB else tokenA
  lowBytes 20 (Keccak256 (create2Message Keccak256 factory token0 token1)).bytes

/-- The cache `decodedInitCode` after a sequence of `GetCreate2Address` calls, each given
as `(factory, tokenA, tokenB)`, starting from the empty cache of program start. -/
def cacheAfter (Keccak256 : List Byte → Bytes32) (calls : List (GoString × GoString × GoString)) :
    List Byte :=
  calls.foldl
    (fun cache c => (GetCreate2Address Keccak256 hexDecodeString cache c.1 c.2.1 c.2.2).2) []

/-! ## Properties of the trace -/

/-- The trace is `before` followed by calls none of which failed. -/
def Clean {σ : Type} (before : List Call) (w : World σ) : Prop :=
  ∃ new, w.calls = before ++ new ∧ ∀ c ∈ new, c.failed = false

/-- The trace is `before` followed by calls of which only the last one may have failed:
no call was issued after a failed one. -/
def Tidy {σ : Type} (before : List Call) (w : World σ) : Prop :=
  ∃ new, w.calls = before ++ new ∧ ∀ c ∈ new.dropLast, c.failed = false

/-- Started after calls that all succeeded, `p` issues no call after a failed one. -/
def Halts {σ α : Type} (before : List Call) (p : Prog σ α) : Prop :=
  ∀ w, Clean before w → Tidy before (p w).world

/-- The three reads with which `swap` starts, all answered. -/
def swapReads (Keccak256 : List Byte → Bytes32) (cfg : Config) : List Call :=
  [⟨.SuggestGasPrice, false⟩, ⟨.Balance cfg.addr, false⟩,
   ⟨.TokenBalance (cfg.tokenA.Hex Keccak256) cfg.addr, false⟩]

/-- The allowance read of `checkApproved` as `swap` issues it. -/
def allowanceRead (Keccak256 : List Byte → Bytes32) (cfg : Config) : WalletOp :=
  .CallContractConstant (cfg.tokenA.Hex Keccak256) .Erc20AbiStr "allowance" none
    [.address (HexToAddress cfg.addr), .address (HexToAddress cfg.uniRouterContractAddress)]

/-- The log line of the spend-token guard. -/
def tokenGuardLine : LogEntry := ⟨.Error, none, [.text "address tokenA amount is: 0"]⟩

/-- The log line of the gas-fee guard. -/
def gasGuardLine : LogEntry := ⟨.Error, none, [.text "地址eth余额不够支付手续费"]⟩

/-- The log line `swap` writes when both guards are passed. -/
def balancesLine (cfg : Config) (ethAmount tokenAmount : Int) : LogEntry :=
  ⟨.Info, some "address: %s eth amount is: %s, token amount is: %s",
    [.goStr cfg.addr,
     .decimal ((Decimal.Start ethAmount).MustUnShiftedBy 18).EndForString,
     .decimal ((Decimal.Start tokenAmount).MustUnShiftedBy cfg.decimalTokenA).EndForString]⟩

/-- The state of `swap` after its three reads were answered in chain state `s` and the
log line `last` was written. -/
def afterReads {σ : Type} (Keccak256 : List Byte → Bytes32) (cfg : Config) (w : World σ)
    (s : σ) (gasPrice : Int) (last : LogEntry) : World σ :=
  { chain := s,
    calls := w.calls ++ swapReads Keccak256 cfg,
    logs := w.logs ++
      [⟨.Info, none, [.text "推荐gasPrice为: ", .bigInt gasPrice]⟩,
       ⟨.Info, none, [.text "get address balance"]⟩, last],
    decodedInitCode := w.decodedInitCode }

/-- The state after `main` wrote one of its three banner lines. -/
def banner {σ : Type} (w : World σ) (line : String) : World σ :=
  { w with logs := w.logs ++ [⟨.Info, none, [.text line]⟩] }

/-- The configuration of the source with the two tokens exchanged, so that `tokenA` has
the larger big-endian value. -/
def exchangedConfig : Config :=
  { sourceConfig with tokenA := sourceConfig.tokenB, tokenB := sourceConfig.tokenA }

/-! ## Mock wallets used at concrete inputs -/

/-- A mock wallet over a chain without state: every read succeeds with the given value,
every transaction is built, sent and mined. -/
def mockWallet (gasPrice ethAmount tokenAmount allowance reserve0 reserve1 : Int) :
    Wallet Unit where
  initRemote := fun _ s => (none, s)
  suggestGasPrice := fun s => (.ok gasPrice, s)
  balance := fun _ s => (.ok ethAmount, s)
  tokenBalance := fun _ _ s => (.ok tokenAmount, s)
  callContractConstant := fun _ abiStr _ _ _ s =>
    match abiStr with
    | .Erc20AbiStr => (.ok [.bigInt allowance], s)
    | .getReservesAbi => (.ok [.bigInt reserve0, .bigInt reserve1, .other "uint32"], s)
  nonceAt := fun _ _ s => (.ok 7, s)
  packParams := fun _ s => (.ok (goString "00"), s)
  buildCallMethodTx := fun _ _ _ _ _ _ s => (.ok (goString "0xf86b"), s)
  buildCallMethodTxWithPayload := fun _ _ _ _ s => (.ok (goString "0xf86c"), s)
  sendRawTransaction := fun _ s => (.ok (goString "0x01"), s)
  waitConfirm := fun _ _ s => some s
  now := fun _ => 1700000000

/-- A mock wallet whose node accepts the connection and then fails every request. -/
def downWallet : Wallet Unit where
  initRemote := fun _ s => (none, s)
  suggestGasPrice := fun s => (.error (.rpc "unavailable"), s)
  balance := fun _ s => (.error (.rpc "unavailable"), s)
  tokenBalance := fun _ _ s => (.error (.rpc "unavailable"), s)
  callContractConstant := fun _ _ _ _ _ s => (.error (.rpc "unavailable"), s)
  nonceAt := fun _ _ s => (.error (.rpc "unavailable"), s)
  packParams := fun _ s => (.error (.rpc "unavailable"), s)
  buildCallMethodTx := fun _ _ _ _ _ _ s => (.error (.rpc "unavailable"), s)
  buildCallMethodTxWithPayload := fun _ _ _ _ s => (.error (.rpc "unavailable"), s)
  sendRawTransaction := fun _ s => (.error (.rpc "unavailable"), s)
  waitConfirm := fun _ _ _ => none
  now := fun _ => 1700000000

/-- A Keccak stand-in for concrete runs: every hash is 32 zero bytes. -/
def zeroHash : List Byte → Bytes32 := fun _ => ⟨List.replicate 32 0, by simp⟩

/-- A hash stand-in that keeps its input visible: the first 32 bytes of the message,
padded with zero bytes. -/
def headHash : List Byte → Bytes32 := fun m =>
  ⟨m.take 32 ++ List.replicate (32 - (m.take 32).length) 0, by
    have h : (m.take 32).length ≤ 32 := by simp [List.length_take]
    simp only [List.length_append, List.length_replicate]
    omega⟩

/-! ## Theorems -/

/-! ### Hex, big integers and addresses -/

theorem hexDecodeString_initCodeHashHex :
    hexDecodeString initCodeHashHex = (initCodeHash, none) := by decide

theorem beValue_eq_ofDigits (buf : List Byte) :
    beValue buf = Nat.ofDigits 256 (buf.reverse.map (fun b => b.val)) := by
  rw [Nat.ofDigits_eq_foldr, List.foldr_map, List.foldr_reverse]
  unfold beValue
  congr 1
  funext acc b
  simp only [Nat.cast_id]
  ring

theorem ofDigits_256_inj : ∀ (L1 L2 : List Nat), L1.length = L2.length →
    (∀ l ∈ L1, l < 256) → (∀ l ∈ L2, l < 256) →
    Nat.ofDigits 256 L1 = Nat.ofDigits 256 L2 → L1 = L2
  | [], [], _, _, _, _ => rfl
  | [], _ :: _, hlen, _, _, _ => by simp at hlen
  | _ :: _, [], hlen, _, _, _ => by simp at hlen
  | a :: L1, b :: L2, hlen, w1, w2, h => by
    have ha : a < 256 := w1 a (by simp)
    have hb : b < 256 := w2 b (by simp)
    rw [Nat.ofDigits_cons, Nat.ofDigits_cons] at h
    have hab : a = b := by omega
    have hrest : Nat.ofDigits 256 L1 = Nat.ofDigits 256 L2 := by omega
    have := ofDigits_256_inj L1 L2 (by simpa using hlen)
      (fun l hl => w1 l (by simp [hl])) (fun l hl => w2 l (by simp [hl])) hrest
    rw [hab, this]

theorem beValue_injective (l1 l2 : List Byte) (hlen : l1.length = l2.length)
    (h : beValue l1 = beValue l2) : l1 = l2 := by
  rw [beValue_eq_ofDigits, beValue_eq_ofDigits] at h
  have h1 : l1.reverse.map (fun b => b.val) = l2.reverse.map (fun b => b.val) := by
    apply ofDigits_256_inj _ _ (by simp [hlen]) _ _ h
    · intro l hl
      simp only [List.mem_map] at hl
      obtain ⟨b, _, rfl⟩ := hl
      exact b.isLt
    · intro l hl
      simp only [List.mem_map] at hl
      obtain ⟨b, _, rfl⟩ := hl
      exact b.isLt
  have h2 : l1.reverse = l2.reverse :=
    List.map_injective_iff.mpr (fun a b hab => Fin.ext hab) h1
  exact List.reverse_injective h2

theorem bigSetBytes_eq (buf : List Byte) : bigSetBytes buf = (beValue buf : Int) := rfl

theorem sortAddressess_comm (a b : Address) : sortAddressess a b = sortAddressess b a := by
  unfold sortAddressess bigCmp
  simp only [bigSetBytes_eq, Address.Bytes, Nat.cast_lt, Nat.cast_inj]
  rcases Nat.lt_trichotomy (beValue a.bytes) (beValue b.bytes) with h | h | h
  · have h1 : ¬ beValue b.bytes < beValue a.bytes := by omega
    have h2 : ¬ beValue b.bytes = beValue a.bytes := by omega
    simp [h, h1, h2]
  · have hab : a = b := by
      have := beValue_injective a.bytes b.bytes (by rw [a.size, b.size]) h
      cases a; cases b; simp_all
    subst hab
    rfl
  · have h1 : ¬ beValue a.bytes < beValue b.bytes := by omega
    have h2 : ¬ beValue a.bytes = beValue b.bytes := by omega
    simp [h, h1, h2]

theorem beValue_zero_cons (t : List Byte) : beValue ((0 : Byte) :: t) = beValue t := by
  simp [beValue]

theorem beValue_dropWhile (l : List Byte) :
    beValue (l.dropWhile (fun b => b = 0)) = beValue l := by
  induction l with
  | nil => rfl
  | cons b t ih =>
    by_cases hb : b = 0
    · subst hb
      simp only [List.dropWhile_cons, decide_True, if_true]
      rw [ih, beValue_zero_cons]
    · simp [List.dropWhile_cons, hb]

theorem map_ofNat_val (l : List Byte) :
    (l.map (fun b => b.val)).map (Fin.ofNat : Nat → Byte) = l := by
  induction l with
  | nil => rfl
  | cons b t ih =>
    simp only [List.map_cons, ih]
    congr 1
    apply Fin.ext
    simp [Fin.ofNat, Nat.mod_eq_of_lt b.isLt]

theorem digits_beValue (l : List Byte) (h : ∀ b t, l = b :: t → b ≠ 0) :
    ((Nat.digits 256 (beValue l)).reverse).map (Fin.ofNat : Nat → Byte) = l := by
  rw [beValue_eq_ofDigits, Nat.digits_ofDigits 256 (by norm_num)]
  · rw [← List.map_reverse, List.reverse_reverse, map_ofNat_val]
  · intro x hx
    simp only [List.mem_map] at hx
    obtain ⟨b, _, rfl⟩ := hx
    exact b.isLt
  · intro hne
    cases l with
    | nil => simp at hne
    | cons b t =>
      have hb := h b t rfl
      simp only [List.reverse_cons, List.map_append, List.map_cons, List.map_nil]
      rw [List.getLast_append_singleton]
      intro h0
      exact hb (Fin.ext h0)

theorem dropWhile_head_ne (l : List Byte) :
    ∀ b t, l.dropWhile (fun b => b = 0) = b :: t → b ≠ 0 := by
  induction l with
  | nil => intro b t h; simp at h
  | cons a s ih =>
    intro b t h
    by_cases ha : a = 0
    · subst ha
      simp only [List.dropWhile_cons, decide_True, if_true] at h
      exact ih b t h
    · simp only [List.dropWhile_cons, ha, decide_False] at h
      simp only [Bool.false_eq_true, if_false, List.cons.injEq] at h
      rw [← h.1]
      exact ha

/-- `SetBytes`, `Abs`, `Bytes` in sequence drop the leading zero bytes. -/
theorem bigBytes_bigSetBytes (h : List Byte) :
    bigBytes (bigAbs (bigSetBytes h)) = h.dropWhile (fun b => b = 0) := by
  unfold bigBytes bigAbs
  rw [bigSetBytes_eq]
  simp only [Int.natAbs_ofNat]
  rw [← beValue_dropWhile]
  exact digits_beValue _ (dropWhile_head_ne h)

theorem BytesToAddress_zero_cons (t : List Byte) :
    BytesToAddress ((0 : Byte) :: t) = BytesToAddress t := by
  have hb : (BytesToAddress ((0 : Byte) :: t)).bytes = (BytesToAddress t).bytes := by
    unfold BytesToAddress cropToAddress AddressLength
    simp only [List.length_cons]
    by_cases h1 : t.length > 20
    · have h2 : t.length + 1 > 20 := by omega
      simp only [h1, h2, if_true]
      have : t.length + 1 - 20 = (t.length - 20) + 1 := by omega
      rw [this, List.drop_succ_cons]
    · by_cases h3 : t.length = 20
      · have h2 : t.length + 1 > 20 := by omega
        simp only [h1, h2, if_true, if_false, h3]
        simp
      · have h2 : ¬ t.length + 1 > 20 := by omega
        simp only [h1, h2, if_false, List.length_cons]
        have : 20 - t.length = (20 - (t.length + 1)) + 1 := by omega
        rw [this, List.replicate_succ']
        simp
  cases h1 : BytesToAddress ((0 : Byte) :: t)
  cases h2 : BytesToAddress t
  simp_all

theorem BytesToAddress_dropWhile (l : List Byte) :
    BytesToAddress (l.dropWhile (fun b => b = 0)) = BytesToAddress l := by
  induction l with
  | nil => rfl
  | cons b t ih =>
    by_cases hb : b = 0
    · subst hb
      simp only [List.dropWhile_cons, decide_True, if_true]
      rw [ih, BytesToAddress_zero_cons]
    · simp [List.dropWhile_cons, hb]

theorem BytesToAddress_bytes_of_long (l : List Byte) (h : 20 ≤ l.length) :
    (BytesToAddress l).bytes = l.drop (l.length - 20) := by
  unfold BytesToAddress cropToAddress AddressLength
  by_cases h1 : l.length > 20
  · simp only [h1, if_true, List.length_drop]
    have : 20 - (l.length - (l.length - 20)) = 0 := by omega
    rw [this]; simp
  · have h2 : l.length = 20 := by omega
    simp [h1, h2]


theorem reverseHexTable_hextable :
    ∀ d : Fin 16, reverseHexTable (hextable d.val) = d.val := by decide

theorem reverseHexTable_upper :
    ∀ d : Fin 16, (hextable d.val).val > 57 →
      reverseHexTable (Fin.ofNat ((hextable d.val).val - 32)) = d.val := by decide

theorem reverseHexTable_checksumCase (d : Nat) (hd : d < 16) (n : Nat) :
    reverseHexTable (checksumCase (hextable d) n) = d := by
  unfold checksumCase
  split
  · next h => exact reverseHexTable_upper ⟨d, hd⟩ h.1
  · exact reverseHexTable_hextable ⟨d, hd⟩

theorem hexDecodeString_checksum (bs : List Byte) :
    ∀ ns : List Nat, 2 * bs.length ≤ ns.length →
      hexDecodeString (List.zipWith checksumCase (hexEncode bs) ns) = (bs, none) := by
  induction bs with
  | nil => intro ns _; simp [hexEncode, hexDecodeString]
  | cons b t ih =>
    intro ns hns
    match ns, hns with
    | [], h => simp at h
    | [_], h => simp at h; omega
    | n1 :: n2 :: ns, h =>
      have hlen : 2 * t.length ≤ ns.length := by simp at h; omega
      have h1 := reverseHexTable_checksumCase (b.val / 16) (by omega) n1
      have h2 := reverseHexTable_checksumCase (b.val % 16) (by omega) n2
      simp only [hexEncode, List.zipWith_cons_cons, hexDecodeString, h1, h2, ih ns hlen]
      have h3 : ¬ (b.val / 16 > 15) := by omega
      have h4 : ¬ (b.val % 16 > 15) := by omega
      simp only [h3, h4, if_false]
      congr 1
      congr 1
      apply Fin.ext
      simp only [Fin.ofNat, Nat.succ_eq_add_one]
      omega

theorem nibbles_length (l : List Byte) : (nibbles l).length = 2 * l.length := by
  induction l with
  | nil => rfl
  | cons b t ih => simp only [nibbles, List.length_cons, ih]; omega

theorem hexEncode_length (l : List Byte) : (hexEncode l).length = 2 * l.length := by
  induction l with
  | nil => rfl
  | cons b t ih => simp only [hexEncode, List.length_cons, ih]; omega

theorem FromHex_0x (z : GoString) (hz : z.length % 2 = 0) :
    FromHex ((48 : Byte) :: (120 : Byte) :: z) = (hexDecodeString z).1 := by
  have h1 : has0xPrefix ((48 : Byte) :: (120 : Byte) :: z) = true := by
    simp [has0xPrefix]
  have h2 : ¬ (z.length % 2 = 1) := by omega
  unfold FromHex Hex2Bytes
  simp only [h1, if_true, List.drop_succ_cons, List.drop_zero, h2, if_false]

/-- Reading back the hex form of an address gives the address. -/
theorem HexToAddress_Hex (Keccak256 : List Byte → Bytes32) (a : Address) :
    HexToAddress (a.Hex Keccak256) = a := by
  have hz : (List.zipWith checksumCase (hexEncode a.bytes)
      (nibbles (Keccak256 (hexEncode a.bytes)).bytes)).length = 40 := by
    simp [List.length_zipWith, hexEncode_length, nibbles_length, a.size, (Keccak256 _).size]
  have hd := hexDecodeString_checksum a.bytes (nibbles (Keccak256 (hexEncode a.bytes)).bytes)
    (by rw [nibbles_length, a.size, (Keccak256 _).size]; norm_num)
  have hb : (HexToAddress (a.Hex Keccak256)).bytes = a.bytes := by
    unfold HexToAddress Address.Hex
    rw [FromHex_0x _ (by rw [hz]), hd]
    rw [BytesToAddress_bytes_of_long _ (by rw [a.size])]
    simp [a.size]
  cases h1 : HexToAddress (a.Hex Keccak256)
  cases a
  simp_all



/-! ### Pair-address derivation -/

theorem create2Finish_bytes (Keccak256 : List Byte → Bytes32) (msg code : List Byte) :
    (create2Finish Keccak256 msg code).bytes = lowBytes 20 (Keccak256 (msg ++ code)).bytes := by
  unfold create2Finish lowBytes
  simp only []
  rw [bigBytes_bigSetBytes, BytesToAddress_dropWhile,
    BytesToAddress_bytes_of_long _ (by rw [(Keccak256 _).size]; norm_num)]

theorem GetCreate2Address_empty (Keccak256 : List Byte → Bytes32) (factory tokenA tokenB : GoString) :
    GetCreate2Address Keccak256 hexDecodeString [] factory tokenA tokenB
      = GetCreate2Address Keccak256 hexDecodeString initCodeHash factory tokenA tokenB := by
  unfold GetCreate2Address
  simp only [hexDecodeString_initCodeHashHex, List.length_nil, if_true]
  rfl

theorem GetCreate2Address_filled (Keccak256 : List Byte → Bytes32)
    (factory tokenA tokenB : GoString) :
    GetCreate2Address Keccak256 hexDecodeString initCodeHash factory tokenA tokenB
      = ((create2Finish Keccak256
          ([(255 : Byte)] ++ (HexToAddress factory).Bytes ++
            (Keccak256 ((sortAddressess (HexToAddress tokenA) (HexToAddress tokenB)).1.Bytes ++
              (sortAddressess (HexToAddress tokenA) (HexToAddress tokenB)).2.Bytes)).bytes)
          initCodeHash, none), initCodeHash) := by
  unfold GetCreate2Address
  have h : ¬ (initCodeHash.length = 0) := by decide
  simp only [h, if_false]

theorem cacheAfter_cases (Keccak256 : List Byte → Bytes32)
    (calls : List (GoString × GoString × GoString)) :
    cacheAfter Keccak256 calls = [] ∨ cacheAfter Keccak256 calls = initCodeHash := by
  unfold cacheAfter
  induction calls using List.reverseRecOn with
  | nil => left; rfl
  | append_singleton l c ih =>
    right
    rw [List.foldl_append]
    simp only [List.foldl_cons, List.foldl_nil]
    rcases ih with h | h
    · rw [h, GetCreate2Address_empty, GetCreate2Address_filled]
    · rw [h, GetCreate2Address_filled]

theorem GetCreate2Address_after (Keccak256 : List Byte → Bytes32)
    (calls : List (GoString × GoString × GoString)) (factory tokenA tokenB : GoString) :
    GetCreate2Address Keccak256 hexDecodeString (cacheAfter Keccak256 calls) factory tokenA tokenB
      = GetCreate2Address Keccak256 hexDecodeString initCodeHash factory tokenA tokenB := by
  rcases cacheAfter_cases Keccak256 calls with h | h
  · rw [h, GetCreate2Address_empty]
  · rw [h]

theorem sortAddressess_eq (a b : Address) :
    sortAddressess a b =
      (if beValue a.bytes ≤ beValue b.bytes then a else b,
       if beValue a.bytes ≤ beValue b.bytes then b else a) := by
  unfold sortAddressess bigCmp
  simp only [bigSetBytes_eq, Address.Bytes, Nat.cast_lt, Nat.cast_inj]
  rcases Nat.lt_trichotomy (beValue a.bytes) (beValue b.bytes) with h | h | h
  · have h1 : beValue a.bytes ≤ beValue b.bytes := by omega
    simp [h, h1]
  · have h1 : beValue a.bytes ≤ beValue b.bytes := by omega
    have h2 : ¬ beValue a.bytes < beValue b.bytes := by omega
    simp [h, h1]
  · have h1 : ¬ beValue a.bytes ≤ beValue b.bytes := by omega
    have h2 : ¬ beValue a.bytes < beValue b.bytes := by omega
    have h3 : ¬ beValue a.bytes = beValue b.bytes := by omega
    simp [h1, h2, h3]

theorem GetCreate2Address_derive (Keccak256 : List Byte → Bytes32)
    (factory tokenA tokenB : GoString) :
    (GetCreate2Address Keccak256 hexDecodeString initCodeHash factory tokenA tokenB).1.1.bytes
      = derive Keccak256 (HexToAddress factory) (HexToAddress tokenA) (HexToAddress tokenB) := by
  rw [GetCreate2Address_filled, create2Finish_bytes, sortAddressess_eq]
  unfold derive create2Message Address.Bytes
  rfl

/-- C1.  `GetCreate2Address` is order-independent in its token arguments: for every hash
function, every hex decoder, every state of the cache, every factory and every two token
arguments `A`, `B` (any strings, so in particular the hex forms of any two 20-byte
addresses), the call with `(factory, A, B)` and the call with `(factory, B, A)` return
the same address and error, and leave the same cache. -/
theorem GetCreate2Address_order_independent (Keccak256 : List Byte → Bytes32)
    (DecodeString : GoString → List Byte × Option GoError) (decodedInitCode : List Byte)
    (factory A B : GoString) :
    GetCreate2Address Keccak256 DecodeString decodedInitCode factory A B
      = GetCreate2Address Keccak256 DecodeString decodedInitCode factory B A := by
  unfold GetCreate2Address
  rw [sortAddressess_comm (HexToAddress A) (HexToAddress B)]

/-- C2.  After any sequence of earlier calls, `GetCreate2Address` returns a nil error and
the address whose 20 bytes are the low 20 bytes of
`Keccak256(0xFF ++ factory ++ Keccak256(token0 ++ token1) ++ initCodeHash)`, with
`token0` the token of smaller big-endian value; the message has 85 bytes; the passage of
any 32-byte hash through `SetBytes`, `Abs`, `Bytes` and `BytesToAddress` yields its low 20
bytes, leading zero bytes included; and for 20-byte addresses passed in their hex form the
factory and tokens of the formula are those addresses. -/
theorem GetCreate2Address_low20 (Keccak256 : List Byte → Bytes32)
    (calls : List (GoString × GoString × GoString)) (factory tokenA tokenB : GoString) :
    (GetCreate2Address Keccak256 hexDecodeString (cacheAfter Keccak256 calls)
        factory tokenA tokenB).1.2 = none
    ∧ (GetCreate2Address Keccak256 hexDecodeString (cacheAfter Keccak256 calls)
        factory tokenA tokenB).1.1.bytes
      = derive Keccak256 (HexToAddress factory) (HexToAddress tokenA) (HexToAddress tokenB)
    ∧ (∀ f t0 t1 : Address, (create2Message Keccak256 f t0 t1).length = 85)
    ∧ (∀ hash : Bytes32,
        (BytesToAddress (bigBytes (bigAbs (bigSetBytes hash.bytes)))).bytes
          = lowBytes 20 hash.bytes
        ∧ (lowBytes 20 hash.bytes).length = 20)
    ∧ (∀ F A B : Address,
        (GetCreate2Address Keccak256 hexDecodeString (cacheAfter Keccak256 calls)
          (F.Hex Keccak256) (A.Hex Keccak256) (B.Hex Keccak256)).1.1.bytes
        = derive Keccak256 F A B) := by
  refine ⟨?_, ?_, ?_, ?_, ?_⟩
  · rw [GetCreate2Address_after, GetCreate2Address_filled]
  · rw [GetCreate2Address_after, GetCreate2Address_derive]
  · intro f t0 t1
    simp only [create2Message, List.length_append, List.length_cons, List.length_nil, f.size,
      (Keccak256 _).size]
    rfl
  · intro hash
    constructor
    · rw [bigBytes_bigSetBytes, BytesToAddress_dropWhile,
        BytesToAddress_bytes_of_long _ (by rw [hash.size]; norm_num)]
      rfl
    · simp [lowBytes, hash.size]
  · intro F A B
    rw [GetCreate2Address_after, GetCreate2Address_derive, HexToAddress_Hex, HexToAddress_Hex,
      HexToAddress_Hex]

/-- C3.  With the cache `decodedInitCode` as explicit state that starts empty: a call of
`GetCreate2Address` returns the same address and error after any two sequences of earlier
calls, and after the call the cache holds the init-code hash constant, which has 32
bytes. -/
theorem GetCreate2Address_deterministic (Keccak256 : List Byte → Bytes32)
    (before before2 : List (GoString × GoString × GoString))
    (factory tokenA tokenB : GoString) :
    (GetCreate2Address Keccak256 hexDecodeString (cacheAfter Keccak256 before)
        factory tokenA tokenB).1
      = (GetCreate2Address Keccak256 hexDecodeString (cacheAfter Keccak256 before2)
        factory tokenA tokenB).1
    ∧ cacheAfter Keccak256 (before ++ [(factory, tokenA, tokenB)]) = initCodeHash
    ∧ initCodeHash.length = 32 := by
  refine ⟨?_, ?_, by decide⟩
  · rw [GetCreate2Address_after, GetCreate2Address_after]
  · have h : cacheAfter Keccak256 (before ++ [(factory, tokenA, tokenB)])
        = (GetCreate2Address Keccak256 hexDecodeString (cacheAfter Keccak256 before)
            factory tokenA tokenB).2 := by
      unfold cacheAfter
      rw [List.foldl_append]
      rfl
    rw [h, GetCreate2Address_after, GetCreate2Address_filled]

/-- C4, as stated, fails: no hash function makes the derived address change whenever an
input byte changes.  For every `Keccak256` the argument triples `(factory, tokenA, tokenB)`
and `(factory, tokenB, tokenA)` built from the addresses in the source differ in their
bytes and derive the same address. -/
theorem GetCreate2Address_collision :
    ¬ ∃ Keccak256 : List Byte → Bytes32,
      ∀ x y : GoString × GoString × GoString, x ≠ y →
        (GetCreate2Address Keccak256 hexDecodeString [] x.1 x.2.1 x.2.2).1.1
          ≠ (GetCreate2Address Keccak256 hexDecodeString [] y.1 y.2.1 y.2.2).1.1 := by
  rintro ⟨Keccak256, h⟩
  apply h
    (goString "0x5c69bee701ef814a2b6a3edd4b1652cb9cc5aa6f",
      goString "0xc7ad46e0b8a400bb3c915120d284aafba8fc4735",
      goString "0xd1822505796C4eba9379D5a8B4141573444042c6")
    (goString "0x5c69bee701ef814a2b6a3edd4b1652cb9cc5aa6f",
      goString "0xd1822505796C4eba9379D5a8B4141573444042c6",
      goString "0xc7ad46e0b8a400bb3c915120d284aafba8fc4735")
    (by decide)
  simp only []
  unfold GetCreate2Address
  rw [sortAddressess_comm]

theorem Address.eq_of_addr_bytes {a b : Address} (h : a.bytes = b.bytes) : a = b := by
  cases a
  cases b
  simp_all

theorem Bytes32.eq_of_hash_bytes {a b : Bytes32} (h : a.bytes = b.bytes) : a = b := by
  cases a
  cases b
  simp_all

theorem sortAddressess_cases (a b : Address) :
    sortAddressess a b = (a, b) ∨ sortAddressess a b = (b, a) := by
  unfold sortAddressess
  simp only []
  by_cases h : bigCmp (bigSetBytes a.Bytes) (bigSetBytes b.Bytes) > 0
  · right; rw [if_pos h]
  · left; rw [if_neg h]

theorem GetCreate2Address_bytes (Keccak256 : List Byte → Bytes32)
    (calls : List (GoString × GoString × GoString)) (factory tokenA tokenB : GoString) :
    (GetCreate2Address Keccak256 hexDecodeString (cacheAfter Keccak256 calls)
        factory tokenA tokenB).1.1.bytes
      = lowBytes 20 (Keccak256 (create2Message Keccak256 (HexToAddress factory)
          (sortAddressess (HexToAddress tokenA) (HexToAddress tokenB)).1
          (sortAddressess (HexToAddress tokenA) (HexToAddress tokenB)).2)).bytes := by
  rw [GetCreate2Address_after, GetCreate2Address_filled, create2Finish_bytes]
  rfl

theorem create2Message_inj (Keccak256 : List Byte → Bytes32) (f t0 t1 f2 u0 u1 : Address)
    (hin : Keccak256 (t0.bytes ++ t1.bytes) = Keccak256 (u0.bytes ++ u1.bytes) →
      t0.bytes ++ t1.bytes = u0.bytes ++ u1.bytes)
    (h : create2Message Keccak256 f t0 t1 = create2Message Keccak256 f2 u0 u1) :
    f = f2 ∧ t0 = u0 ∧ t1 = u1 := by
  unfold create2Message at h
  have h1 := List.append_cancel_right h
  have h2 := List.append_inj h1 (by simp [f.size, f2.size])
  have hf : f.bytes = f2.bytes := List.append_cancel_left h2.1
  have ht := List.append_inj (hin (Bytes32.eq_of_hash_bytes h2.2)) (by rw [t0.size, u0.size])
  exact ⟨Address.eq_of_addr_bytes hf, Address.eq_of_addr_bytes ht.1, Address.eq_of_addr_bytes ht.2⟩

/-- C4, amended.  The address returned by `GetCreate2Address` has exactly 20 bytes, and it
changes whenever a byte of the factory address or of a token address changes, except when
the two tokens are only exchanged, and up to collisions of Keccak on the two messages the
code builds: if Keccak-256 does not collide on the two token strings `token0 ++ token1`
and its low 20 bytes do not collide on the two 85-byte messages, then two calls return
the same address exactly when the decoded factory addresses are equal and the decoded
token addresses are the same two, in either order. -/
theorem GetCreate2Address_sensitive (Keccak256 : List Byte → Bytes32)
    (calls : List (GoString × GoString × GoString))
    (factory tokenA tokenB factory2 tokenA2 tokenB2 : GoString)
    (hin : Keccak256
        ((sortAddressess (HexToAddress tokenA) (HexToAddress tokenB)).1.bytes ++
          (sortAddressess (HexToAddress tokenA) (HexToAddress tokenB)).2.bytes)
      = Keccak256
        ((sortAddressess (HexToAddress tokenA2) (HexToAddress tokenB2)).1.bytes ++
          (sortAddressess (HexToAddress tokenA2) (HexToAddress tokenB2)).2.bytes) →
      (sortAddressess (HexToAddress tokenA) (HexToAddress tokenB)).1.bytes ++
          (sortAddressess (HexToAddress tokenA) (HexToAddress tokenB)).2.bytes
      = (sortAddressess (HexToAddress tokenA2) (HexToAddress tokenB2)).1.bytes ++
          (sortAddressess (HexToAddress tokenA2) (HexToAddress tokenB2)).2.bytes)
    (hout : lowBytes 20 (Keccak256 (create2Message Keccak256 (HexToAddress factory)
          (sortAddressess (HexToAddress tokenA) (HexToAddress tokenB)).1
          (sortAddressess (HexToAddress tokenA) (HexToAddress tokenB)).2)).bytes
      = lowBytes 20 (Keccak256 (create2Message Keccak256 (HexToAddress factory2)
          (sortAddressess (HexToAddress tokenA2) (HexToAddress tokenB2)).1
          (sortAddressess (HexToAddress tokenA2) (HexToAddress tokenB2)).2)).bytes →
      create2Message Keccak256 (HexToAddress factory)
          (sortAddressess (HexToAddress tokenA) (HexToAddress tokenB)).1
          (sortAddressess (HexToAddress tokenA) (HexToAddress tokenB)).2
      = create2Message Keccak256 (HexToAddress factory2)
          (sortAddressess (HexToAddress tokenA2) (HexToAddress tokenB2)).1
          (sortAddressess (HexToAddress tokenA2) (HexToAddress tokenB2)).2) :
    (GetCreate2Address Keccak256 hexDecodeString (cacheAfter Keccak256 calls)
        factory tokenA tokenB).1.1.bytes.length = 20
    ∧ ((GetCreate2Address Keccak256 hexDecodeString (cacheAfter Keccak256 calls)
          factory tokenA tokenB).1.1
        = (GetCreate2Address Keccak256 hexDecodeString (cacheAfter Keccak256 calls)
          factory2 tokenA2 tokenB2).1.1
      ↔ HexToAddress factory = HexToAddress factory2
        ∧ ((HexToAddress tokenA = HexToAddress tokenA2
              ∧ HexToAddress tokenB = HexToAddress tokenB2)
          ∨ (HexToAddress tokenA = HexToAddress tokenB2
              ∧ HexToAddress tokenB = HexToAddress tokenA2))) := by
  refine ⟨Address.size _, ?_, ?_⟩
  · intro h
    have hb := congrArg Address.bytes h
    rw [GetCreate2Address_bytes, GetCreate2Address_bytes] at hb
    obtain ⟨hf, h0, h1⟩ := create2Message_inj Keccak256 _ _ _ _ _ _ hin (hout hb)
    refine ⟨hf, ?_⟩
    rcases sortAddressess_cases (HexToAddress tokenA) (HexToAddress tokenB) with e | e <;>
      rcases sortAddressess_cases (HexToAddress tokenA2) (HexToAddress tokenB2) with e2 | e2 <;>
      rw [e, e2] at h0 h1 <;> simp only [] at h0 h1
    · exact Or.inl ⟨h0, h1⟩
    · exact Or.inr ⟨h0, h1⟩
    · exact Or.inr ⟨h1, h0⟩
    · exact Or.inl ⟨h1, h0⟩
  · rintro ⟨hf, ⟨ha, hb⟩ | ⟨ha, hb⟩⟩
    · unfold GetCreate2Address
      rw [hf, ha, hb]
    · unfold GetCreate2Address
      rw [hf, ha, hb, sortAddressess_comm (HexToAddress tokenB2) (HexToAddress tokenA2)]

/-- C4, amended, at the addresses of the source, with a hash that does not collide on the
messages involved: replacing `tokenA` by the WETH address changes the derived address. -/
theorem GetCreate2Address_sensitive_witness :
    (lowBytes 20 (headHash (create2Message headHash
          (HexToAddress (goString "0x5c69bee701ef814a2b6a3edd4b1652cb9cc5aa6f"))
          (sortAddressess (HexToAddress (goString "0xc7ad46e0b8a400bb3c915120d284aafba8fc4735"))
            (HexToAddress (goString "0xd1822505796C4eba9379D5a8B4141573444042c6"))).1
          (sortAddressess (HexToAddress (goString "0xc7ad46e0b8a400bb3c915120d284aafba8fc4735"))
            (HexToAddress (goString "0xd1822505796C4eba9379D5a8B4141573444042c6"))).2)).bytes
      ≠ lowBytes 20 (headHash (create2Message headHash
          (HexToAddress (goString "0x5c69bee701ef814a2b6a3edd4b1652cb9cc5aa6f"))
          (sortAddressess (HexToAddress (goString "0xc778417e063141139fce010982780140aa0cd5ab"))
            (HexToAddress (goString "0xd1822505796C4eba9379D5a8B4141573444042c6"))).1
          (sortAddressess (HexToAddress (goString "0xc778417e063141139fce010982780140aa0cd5ab"))
            (HexToAddress (goString "0xd1822505796C4eba9379D5a8B4141573444042c6"))).2)).bytes)
    ∧ (GetCreate2Address headHash hexDecodeString (cacheAfter headHash [])
          (goString "0x5c69bee701ef814a2b6a3edd4b1652cb9cc5aa6f")
          (goString "0xc7ad46e0b8a400bb3c915120d284aafba8fc4735")
          (goString "0xd1822505796C4eba9379D5a8B4141573444042c6")).1.1
      ≠ (GetCreate2Address headHash hexDecodeString (cacheAfter headHash [])
          (goString "0x5c69bee701ef814a2b6a3edd4b1652cb9cc5aa6f")
          (goString "0xc778417e063141139fce010982780140aa0cd5ab")
          (goString "0xd1822505796C4eba9379D5a8B4141573444042c6")).1.1 :=
  ⟨by decide,
    fun h => absurd
      ((GetCreate2Address_sensitive headHash []
        (goString "0x5c69bee701ef814a2b6a3edd4b1652cb9cc5aa6f")
        (goString "0xc7ad46e0b8a400bb3c915120d284aafba8fc4735")
        (goString "0xd1822505796C4eba9379D5a8B4141573444042c6")
        (goString "0x5c69bee701ef814a2b6a3edd4b1652cb9cc5aa6f")
        (goString "0xc778417e063141139fce010982780140aa0cd5ab")
        (goString "0xd1822505796C4eba9379D5a8B4141573444042c6")
        (by decide) (by decide)).2.mp h)
      (by decide)⟩

/-- With a hex decoder that returns an error (whatever bytes and error it returns),
`GetCreate2Address` called with an empty cache returns the zero address together with a nil
error: `errors.Wrap` is applied to the named result `err`, which is nil, and not to the
decoder's `err1`. -/
theorem GetCreate2Address_failing_decoder (Keccak256 : List Byte → Bytes32)
    (decoded : List Byte) (err1 : GoError) (factory tokenA tokenB : GoString) :
    GetCreate2Address Keccak256 (fun _ => (decoded, some err1)) [] factory tokenA tokenB
      = ((Address.zero, none), []) := by
  unfold GetCreate2Address
  simp [errorsWrap]


/-! ### Running the program -/

section Run

variable {σ : Type}

theorem bind_eq_andThen {α β : Type} (p : Prog σ α) (f : α → Prog σ β) :
    (p >>= f) = Prog.andThen p f := rfl

theorem pure_eq_ret {α : Type} (a : α) : (pure a : Prog σ α) = Prog.ret a := rfl

theorem andThen_ret {α β : Type} (a : α) (f : α → Prog σ β) (w : World σ) :
    Prog.andThen (Prog.ret a) f w = f a w := rfl

theorem andThen_panic {α β : Type} (f : α → Prog σ β) (w : World σ) :
    Prog.andThen (Prog.panic : Prog σ α) f w = .panicked w := rfl

theorem andThen_log {β : Type} (level : Level) (format : Option String) (args : List LogArg)
    (f : Unit → Prog σ β) (w : World σ) :
    Prog.andThen (Prog.log level format args) f w
      = f () { w with logs := w.logs ++ [⟨level, format, args⟩] } := rfl

theorem andThen_call {α β : Type} (op : WalletOp) (handler : σ → Except GoError α × σ)
    (f : Except GoError α → Prog σ β) (w : World σ) :
    Prog.andThen (Prog.call op handler) f w
      = f (handler w.chain).1
          { w with chain := (handler w.chain).2,
                   calls := w.calls ++ [⟨op, match (handler w.chain).1 with
                     | .error _ => true | .ok _ => false⟩] } := rfl

theorem andThen_assoc {α β γ : Type} (p : Prog σ α) (f : α → Prog σ β) (g : β → Prog σ γ) :
    Prog.andThen (Prog.andThen p f) g = Prog.andThen p (fun a => Prog.andThen (f a) g) := by
  funext w
  unfold Prog.andThen
  cases p w <;> rfl

theorem checkApproved_run (wallet : Wallet σ) (address uniRouterAddress contractAddress : GoString)
    (w : World σ) (allowance : Int) (rest : List AbiValue) (s : σ)
    (hread : wallet.callContractConstant contractAddress .Erc20AbiStr "allowance" none
        [.address (HexToAddress address), .address (HexToAddress uniRouterAddress)] w.chain
      = (.ok (.bigInt allowance :: rest), s)) :
    checkApproved wallet address uniRouterAddress contractAddress w
      = .returned (.ok (bigCmp allowance maxApprove != -1))
          { chain := s,
            calls := w.calls ++ [⟨.CallContractConstant contractAddress .Erc20AbiStr "allowance"
              none [.address (HexToAddress address), .address (HexToAddress uniRouterAddress)],
              false⟩],
            logs := w.logs ++ [⟨.Info, some "approved amount is: %s, maxApprove is: %s",
              [.bigInt allowance, .bigInt maxApprove]⟩],
            decodedInitCode := w.decodedInitCode } := by
  unfold checkApproved Wallet.CallContractConstant InfoF
  simp only [bind_eq_andThen, pure_eq_ret, andThen_call, hread]
  rfl

set_option maxRecDepth 100000 in
theorem maxApprove_eq : maxApprove = 2 ^ 256 - 1 := by decide

theorem bigCmp_ne_neg_one (x y : Int) : (bigCmp x y != -1) = decide (y ≤ x) := by
  unfold bigCmp
  by_cases h : x < y
  · have : ¬ y ≤ x := by omega
    simp [h, this]
  · have h2 : y ≤ x := by omega
    by_cases h3 : x = y <;> simp [h, h2, h3]

end Run

section Guards

variable {σ : Type}

theorem bigCmp_le_zero (x y : Int) : bigCmp x y ≤ 0 ↔ x ≤ y := by
  unfold bigCmp
  by_cases h : x < y
  · simp [h]; omega
  · by_cases h3 : x = y
    · simp [h3]
    · simp [h, h3]; omega

theorem bigCmp_eq_neg_one (x y : Int) : bigCmp x y = -1 ↔ x < y := by
  unfold bigCmp
  by_cases h : x < y
  · simp [h]
  · by_cases h3 : x = y <;> simp [h, h3]

theorem Lte_zero (tok n : Int) :
    (Decimal.StartString ((Decimal.Start tok).MustUnShiftedBy n).EndForString).Lte 0
      = decide (tok ≤ 0) := by
  unfold Decimal.Lte Decimal.Cmp Decimal.StartString Decimal.EndForString
    Decimal.MustUnShiftedBy Decimal.Start
  simp only [bigCmp_le_zero, zero_mul]
  congr 1
  apply propext
  have hpos : (0 : Int) < 10 ^ (0 - n - min (0 - n) 0).toNat := by positivity
  constructor
  · intro h
    by_contra hc
    have : 0 < tok := by omega
    have := mul_pos this hpos
    omega
  · intro h
    exact mul_nonpos_of_nonpos_of_nonneg h (le_of_lt hpos)

theorem toRat_unshifted (tok : Int) :
    ((Decimal.Start tok).MustUnShiftedBy 18).toRat = (tok : ℚ) / 10 ^ 18 := by
  unfold Decimal.toRat Decimal.MustUnShiftedBy Decimal.Start
  simp only [zero_sub, zpow_neg]
  rw [div_eq_mul_inv]
  norm_cast

theorem human_le_zero (tok : Int) : (tok : ℚ) / 10 ^ 18 ≤ 0 ↔ tok ≤ 0 := by
  have h : (0 : ℚ) < 10 ^ 18 := by norm_num
  rw [div_le_iff₀ h, zero_mul]
  exact_mod_cast Iff.rfl

/-- `swap` once its three reads are answered: the two guards, then the allowance block. -/
theorem swap_after_reads (Keccak256 : List Byte → Bytes32) (cfg : Config) (wallet : Wallet σ)
    (w : World σ) (gasPrice ethAmount tokenAmount : Int) (s1 s2 s3 : σ)
    (hgas : wallet.suggestGasPrice w.chain = (.ok gasPrice, s1))
    (hbal : wallet.balance cfg.addr s1 = (.ok ethAmount, s2))
    (htok : wallet.tokenBalance (cfg.tokenA.Hex Keccak256) cfg.addr s2 = (.ok tokenAmount, s3)) :
    swap Keccak256 cfg wallet w
      = if tokenAmount ≤ 0 then
          .returned () (afterReads Keccak256 cfg w s3 gasPrice tokenGuardLine)
        else if ethAmount < gasPrice * 600000 then
          .returned () (afterReads Keccak256 cfg w s3 gasPrice gasGuardLine)
        else
          swapFromAllowance Keccak256 cfg wallet gasPrice 300000
            (afterReads Keccak256 cfg w s3 gasPrice (balancesLine cfg ethAmount tokenAmount)) := by
  unfold swap getAddressBalance Wallet.SuggestGasPrice Wallet.Balance Wallet.TokenBalance
    Error Info InfoF
  simp only [bind_eq_andThen, pure_eq_ret, andThen_assoc, andThen_call, andThen_log,
    andThen_ret, hgas, hbal, htok, Lte_zero, bigCmp_eq_neg_one, decide_eq_true_eq]
  have h6 : ((300000 * 2 : Nat) : Int) = 600000 := by norm_num
  rw [h6]
  split
  · simp [Prog.log, afterReads, swapReads, tokenGuardLine]
  · split
    · simp [Prog.log, afterReads, swapReads, gasGuardLine]
    · rw [andThen_log]
      simp [afterReads, swapReads, balancesLine]

end Guards

section Paths

variable {σ : Type}

theorem andThen_waitConfirm {β : Type} (wallet : Wallet σ) (txHash : GoString) (interval : Nat)
    (f : Unit → Prog σ β) (w : World σ) :
    Prog.andThen (wallet.WaitConfirm txHash interval) f w
      = match wallet.waitConfirm txHash interval w.chain with
        | some s => f () { w with chain := s,
                                  calls := w.calls ++ [⟨.WaitConfirm txHash interval, false⟩] }
        | none => .blocked { w with calls := w.calls ++ [⟨.WaitConfirm txHash interval, false⟩] } := by
  unfold Prog.andThen Wallet.WaitConfirm
  cases wallet.waitConfirm txHash interval w.chain <;> rfl

theorem andThen_now {β : Type} (wallet : Wallet σ) (f : Int → Prog σ β) (w : World σ) :
    Prog.andThen wallet.Now f w = f (wallet.now w.chain) w := rfl

theorem Clean.tidy {before : List Call} {w : World σ} (h : Clean before w) : Tidy before w := by
  obtain ⟨new, hnew, hall⟩ := h
  exact ⟨new, hnew, fun c hc => hall c (List.mem_of_mem_dropLast hc)⟩

theorem Clean.snoc {before : List Call} {w : World σ} (h : Clean before w) (op : WalletOp)
    (w2 : World σ) (h2 : w2.calls = w.calls ++ [⟨op, false⟩]) : Clean before w2 := by
  obtain ⟨new, hnew, hall⟩ := h
  refine ⟨new ++ [⟨op, false⟩], by rw [h2, hnew, List.append_assoc], ?_⟩
  intro c hc
  rcases List.mem_append.mp hc with h | h
  · exact hall c h
  · simp only [List.mem_singleton] at h
    rw [h]

theorem Clean.snoc_tidy {before : List Call} {w : World σ} (h : Clean before w) (c : Call)
    (w2 : World σ) (h2 : w2.calls = w.calls ++ [c]) : Tidy before w2 := by
  obtain ⟨new, hnew, hall⟩ := h
  refine ⟨new ++ [c], by rw [h2, hnew, List.append_assoc], ?_⟩
  intro d hd
  rw [List.dropLast_concat] at hd
  exact hall d hd

theorem halts_quiet {α : Type} (before : List Call) (p : Prog σ α)
    (h : ∀ w, (p w).world.calls = w.calls) : Halts before p := by
  intro w hw
  obtain ⟨new, hnew, hall⟩ := hw.tidy
  exact ⟨new, by rw [h w, hnew], hall⟩

theorem halts_log {β : Type} (before : List Call) (level : Level) (format : Option String)
    (args : List LogArg) (f : Unit → Prog σ β) (h : Halts before (f ())) :
    Halts before (Prog.andThen (Prog.log level format args) f) := by
  intro w hw
  rw [andThen_log]
  apply h
  obtain ⟨new, hnew, hall⟩ := hw
  exact ⟨new, hnew, hall⟩

theorem halts_call {α β : Type} (before : List Call) (op : WalletOp)
    (handler : σ → Except GoError α × σ) (f : Except GoError α → Prog σ β)
    (herr : ∀ e w, (f (.error e) w).world.calls = w.calls)
    (hok : ∀ a, Halts before (f (.ok a))) :
    Halts before (Prog.andThen (Prog.call op handler) f) := by
  intro w hw
  rw [andThen_call]
  cases hr : (handler w.chain).1 with
  | error e =>
    simp only []
    obtain ⟨new, hnew, hall⟩ := hw.snoc_tidy ⟨op, true⟩
      { w with chain := (handler w.chain).2, calls := w.calls ++ [⟨op, true⟩] } rfl
    exact ⟨new, by rw [herr]; exact hnew, hall⟩
  | ok a =>
    simp only []
    apply hok
    exact hw.snoc op _ rfl

theorem halts_waitConfirm {β : Type} (before : List Call) (wallet : Wallet σ)
    (txHash : GoString) (interval : Nat) (f : Unit → Prog σ β) (h : Halts before (f ())) :
    Halts before (Prog.andThen (wallet.WaitConfirm txHash interval) f) := by
  intro w hw
  rw [andThen_waitConfirm]
  cases wallet.waitConfirm txHash interval w.chain with
  | none => exact (hw.snoc (.WaitConfirm txHash interval) _ rfl).tidy
  | some s =>
    apply h
    exact hw.snoc (.WaitConfirm txHash interval) _ rfl

theorem halts_now {β : Type} (before : List Call) (wallet : Wallet σ) (f : Int → Prog σ β)
    (h : ∀ t, Halts before (f t)) : Halts before (Prog.andThen wallet.Now f) := by
  intro w hw
  rw [andThen_now]
  exact h _ w hw

theorem swapSubmit_halts (before : List Call) (cfg : Config) (wallet : Wallet σ)
    (gasLimit : Nat) : Halts before (swapSubmit cfg wallet gasLimit) := by
  unfold swapSubmit swapExactTokensForTokens Wallet.SuggestGasPrice Wallet.NonceAt
    Wallet.PackParams Wallet.BuildCallMethodTxWithPayload Wallet.SendRawTransaction
    Error Info InfoF
  simp only [bind_eq_andThen, pure_eq_ret, andThen_assoc]
  apply halts_call
  · intro e w; rfl
  intro gasPrice
  apply halts_log
  apply halts_call
  · intro e w; rfl
  intro nonce
  apply halts_log
  apply halts_now
  intro t
  apply halts_call
  · intro e w; rfl
  intro params
  simp only [andThen_assoc]
  apply halts_call
  · intro e w; rfl
  intro txHex
  simp only [andThen_assoc]
  apply halts_call
  · intro e w; rfl
  intro txHash
  apply halts_waitConfirm
  apply halts_quiet
  intro w; rfl

theorem halts_ret {α β : Type} (before : List Call) (a : α) (f : α → Prog σ β)
    (h : Halts before (f a)) : Halts before (Prog.andThen (Prog.ret a) f) := h

theorem call_first {α β : Type} (op : WalletOp) (handler : σ → Except GoError α × σ)
    (f : Except GoError α → Prog σ β)
    (herr : ∀ e w, (f (.error e) w).world.calls = w.calls)
    (hok : ∀ before a, Halts before (f (.ok a))) (w : World σ) :
    ∃ failed rest, (Prog.andThen (Prog.call op handler) f w).world.calls
      = w.calls ++ ⟨op, failed⟩ :: rest := by
  rw [andThen_call]
  cases hr : (handler w.chain).1 with
  | error e =>
    simp only []
    refine ⟨true, [], ?_⟩
    rw [herr]
  | ok a =>
    simp only []
    obtain ⟨new, hnew, _⟩ := hok (w.calls ++ [⟨op, false⟩]) a
      { w with chain := (handler w.chain).2, calls := w.calls ++ [⟨op, false⟩] }
      ⟨[], by simp, by simp⟩
    refine ⟨false, new, ?_⟩
    rw [hnew, List.append_assoc]
    rfl

theorem call_both {α β : Type} (op : WalletOp) (handler : σ → Except GoError α × σ)
    (f : Except GoError α → Prog σ β)
    (herr : ∀ e w, (f (.error e) w).world.calls = w.calls)
    (hok : ∀ before a, Halts before (f (.ok a))) :
    (∀ before, Halts before (Prog.andThen (Prog.call op handler) f))
    ∧ ∀ w, ∃ failed rest, (Prog.andThen (Prog.call op handler) f w).world.calls
        = w.calls ++ ⟨op, failed⟩ :: rest :=
  ⟨fun before => halts_call before op handler f herr (hok before),
    call_first op handler f herr hok⟩

theorem swapFromAllowance_cont (Keccak256 : List Byte → Bytes32)
    (cfg : Config) (wallet : Wallet σ) (gasPrice : Int) (gasLimit : Nat) :
    (∀ before, Halts before (swapFromAllowance Keccak256 cfg wallet gasPrice gasLimit))
    ∧ ∀ w, ∃ failed rest,
        (swapFromAllowance Keccak256 cfg wallet gasPrice gasLimit w).world.calls
          = w.calls ++
            ⟨.CallContractConstant (cfg.tokenA.Hex Keccak256) .Erc20AbiStr "allowance" none
              [.address (HexToAddress cfg.addr),
               .address (HexToAddress cfg.uniRouterContractAddress)], failed⟩ :: rest := by
  have hsubmit := fun before => swapSubmit_halts before cfg wallet gasLimit
  unfold swapFromAllowance checkApproved approve Wallet.CallContractConstant Wallet.NonceAt
    Wallet.BuildCallMethodTx Wallet.SendRawTransaction Error Info InfoF
  simp only [bind_eq_andThen, pure_eq_ret, andThen_assoc]
  apply call_both
  · intro e w; rfl
  intro before res
  rcases res with _ | ⟨v, tail⟩
  · exact halts_quiet _ _ (fun w => rfl)
  · cases v with
    | bigInt approved =>
      simp only [andThen_assoc]
      apply halts_log
      apply halts_ret
      simp only []
      split
      · apply halts_log
        apply halts_call
        · intro e w; rfl
        intro nonce
        apply halts_log
        apply halts_log
        apply halts_call
        · intro e w; rfl
        intro txHex
        apply halts_call
        · intro e w; rfl
        intro txHash
        apply halts_waitConfirm
        apply halts_log
        exact hsubmit before
      · exact hsubmit before
    | address a => exact halts_quiet _ _ (fun w => rfl)
    | addressArr path => exact halts_quiet _ _ (fun w => rfl)
    | other goType => exact halts_quiet _ _ (fun w => rfl)

theorem swapFromAllowance_halts (before : List Call) (Keccak256 : List Byte → Bytes32)
    (cfg : Config) (wallet : Wallet σ) (gasPrice : Int) (gasLimit : Nat) :
    Halts before (swapFromAllowance Keccak256 cfg wallet gasPrice gasLimit) :=
  (swapFromAllowance_cont Keccak256 cfg wallet gasPrice gasLimit).1 before

theorem swap_halts (before : List Call) (Keccak256 : List Byte → Bytes32) (cfg : Config)
    (wallet : Wallet σ) : Halts before (swap Keccak256 cfg wallet) := by
  have hrest := fun gasPrice gasLimit =>
    swapFromAllowance_halts before Keccak256 cfg wallet gasPrice gasLimit
  unfold swap getAddressBalance Wallet.SuggestGasPrice Wallet.Balance Wallet.TokenBalance
    Error Info InfoF
  simp only [bind_eq_andThen, pure_eq_ret, andThen_assoc]
  apply halts_call
  · intro e w; rfl
  intro gasPrice
  apply halts_log
  apply halts_log
  apply halts_call
  · intro e w; rfl
  intro ethAmount
  simp only [andThen_assoc]
  apply halts_call
  · intro e w; rfl
  intro tokenAmount
  apply halts_ret
  simp only []
  split
  · exact halts_quiet _ _ (fun w => rfl)
  · split
    · exact halts_quiet _ _ (fun w => rfl)
    · apply halts_log
      exact hrest _ _

theorem halts_silent {α β : Type} (before : List Call) (p : Prog σ α) (f : α → Prog σ β)
    (hp : ∀ w, ∃ a w2, p w = .returned a w2 ∧ w2.calls = w.calls)
    (h : ∀ a, Halts before (f a)) : Halts before (Prog.andThen p f) := by
  intro w hw
  obtain ⟨a, w2, hpw, hcalls⟩ := hp w
  unfold Prog.andThen
  rw [hpw]
  apply h a w2
  obtain ⟨new, hnew, hall⟩ := hw
  exact ⟨new, by rw [hcalls, hnew], hall⟩

theorem queryTokensAmountInLp_halts (before : List Call) (Keccak256 : List Byte → Bytes32)
    (cfg : Config) (wallet : Wallet σ) :
    Halts before (queryTokensAmountInLp Keccak256 cfg wallet) := by
  unfold queryTokensAmountInLp getReserves Wallet.CallContractConstant Error InfoF
  simp only [bind_eq_andThen, pure_eq_ret, andThen_assoc]
  apply halts_silent
  · intro w
    exact ⟨_, _, rfl, rfl⟩
  intro r
  rcases r with ⟨paireAddr, _ | err⟩
  · simp only [andThen_assoc]
    apply halts_call
    · intro e w; rfl
    intro res
    apply halts_quiet
    intro w
    rcases res with _ | ⟨v0, _ | ⟨v1, tail⟩⟩
    · rfl
    · cases v0 <;> rfl
    · cases v0 <;> cases v1 <;> first | rfl | (simp only [andThen_ret]; split <;> rfl)
  · exact halts_quiet _ _ (fun w => rfl)

end Paths

/-! ### The claims on the wallet-driven part -/

section Claims

variable {σ : Type}

theorem GetCreate2Address_err_none (Keccak256 : List Byte → Bytes32) (cache : List Byte)
    (factory tokenA tokenB : GoString) :
    (GetCreate2Address Keccak256 hexDecodeString cache factory tokenA tokenB).1.2 = none := by
  unfold GetCreate2Address
  simp only [hexDecodeString_initCodeHashHex]
  split <;> rfl

/-- `queryTokensAmountInLp` when `getReserves` is answered with two integers. -/
theorem queryTokensAmountInLp_run (Keccak256 : List Byte → Bytes32) (cfg : Config)
    (wallet : Wallet σ) (w : World σ) (r0 r1 : Int) (rest : List AbiValue) (s : σ)
    (hres : wallet.callContractConstant
        ((GetCreate2Address Keccak256 hexDecodeString w.decodedInitCode cfg.factory
          (cfg.tokenA.Hex Keccak256) (cfg.tokenB.Hex Keccak256)).1.1.Hex Keccak256)
        .getReservesAbi "getReserves" (some 5) [] w.chain
      = (.ok (.bigInt r0 :: .bigInt r1 :: rest), s)) :
    (queryTokensAmountInLp Keccak256 cfg wallet w).world.logs
      = w.logs ++
        [⟨.Info, some "in liquid pool tokenA amount is: %s, tokenB amount is: %s\n",
          if beValue cfg.tokenA.bytes > beValue cfg.tokenB.bytes then
            [.methodValue ((Decimal.Start r1).MustUnShiftedBy cfg.decimalTokenA),
             .decimal ((Decimal.Start r0).MustUnShiftedBy cfg.decimalTokenB).EndForString]
          else
            [.decimal ((Decimal.Start r0).MustUnShiftedBy cfg.decimalTokenA).EndForString,
             .decimal ((Decimal.Start r1).MustUnShiftedBy cfg.decimalTokenB).EndForString]⟩] := by
  have herr := GetCreate2Address_err_none Keccak256 w.decodedInitCode cfg.factory
    (cfg.tokenA.Hex Keccak256) (cfg.tokenB.Hex Keccak256)
  unfold queryTokensAmountInLp getReserves Wallet.CallContractConstant Error InfoF
  simp only [bind_eq_andThen, pure_eq_ret, andThen_assoc]
  unfold Prog.andThen GetCreate2AddressM
  simp only []
  revert hres herr
  generalize GetCreate2Address Keccak256 hexDecodeString w.decodedInitCode cfg.factory
    (cfg.tokenA.Hex Keccak256) (cfg.tokenB.Hex Keccak256) = g
  rcases g with ⟨⟨pair, e⟩, cache⟩
  intro hres herr
  simp only [] at herr hres
  subst herr
  simp only [Prog.call, hres, Prog.ret]
  have hc : (bigCmp (bigSetBytes cfg.tokenA.Bytes) (bigSetBytes cfg.tokenB.Bytes) > 0)
      ↔ beValue cfg.tokenA.bytes > beValue cfg.tokenB.bytes := by
    unfold bigCmp
    simp only [bigSetBytes_eq, Address.Bytes, Nat.cast_lt, Nat.cast_inj]
    rcases Nat.lt_trichotomy (beValue cfg.tokenA.bytes) (beValue cfg.tokenB.bytes) with h | h | h
    · have : ¬ beValue cfg.tokenA.bytes > beValue cfg.tokenB.bytes := by omega
      simp [h, this]
    · simp [h]
    · have h1 : ¬ beValue cfg.tokenA.bytes < beValue cfg.tokenB.bytes := by omega
      have h2 : ¬ beValue cfg.tokenA.bytes = beValue cfg.tokenB.bytes := by omega
      simp [h, h1, h2]
  by_cases hgt : beValue cfg.tokenA.bytes > beValue cfg.tokenB.bytes
  · simp [hc, hgt, Prog.log, Outcome.world]
  · simp [hc, hgt, Prog.log, Outcome.world]

end Claims


/-! ### Claims C6 to C10 -/

section Orchestration

variable {σ : Type}

/-- C6.  When the allowance read succeeds and its first value is the integer `allowance`,
`checkApproved` returns a nil error and `isApproved`, with `isApproved = true` exactly
when `allowance >= maxApprove`, where `maxApprove = 2^256 - 1`; so `maxApprove - 1` gives
false and `maxApprove` gives true. -/
theorem checkApproved_iff (wallet : Wallet σ) (address uniRouterAddress contractAddress : GoString)
    (w : World σ) (allowance : Int) (rest : List AbiValue) (s : σ)
    (hread : wallet.callContractConstant contractAddress .Erc20AbiStr "allowance" none
        [.address (HexToAddress address), .address (HexToAddress uniRouterAddress)] w.chain
      = (.ok (.bigInt allowance :: rest), s)) :
    (∃ isApproved w2,
      checkApproved wallet address uniRouterAddress contractAddress w
        = .returned (.ok isApproved) w2
      ∧ (isApproved = true ↔ allowance ≥ maxApprove)
      ∧ (allowance = maxApprove - 1 → isApproved = false)
      ∧ (allowance = maxApprove → isApproved = true))
    ∧ maxApprove = 2 ^ 256 - 1 := by
  refine ⟨⟨_, _, checkApproved_run wallet address uniRouterAddress contractAddress w allowance
    rest s hread, ?_, ?_, ?_⟩, maxApprove_eq⟩
  · rw [bigCmp_ne_neg_one]
    simp
  · intro h
    rw [bigCmp_ne_neg_one, h]
    simp
  · intro h
    rw [bigCmp_ne_neg_one, h]
    simp

/-- C6 at `allowance = maxApprove - 1`, read from a mock wallet. -/
theorem checkApproved_iff_witness :
    (mockWallet 50 0 1 (2 ^ 256 - 2) 100 200).callContractConstant
        (goString "0xc7ad46e0b8a400bb3c915120d284aafba8fc4735") .Erc20AbiStr "allowance" none
        [.address (HexToAddress (goString "0x01")),
         .address (HexToAddress (goString "0x7a250d5630B4cF539739dF2C5dAcb4c659F2488D"))]
        (World.start ()).chain
      = (.ok (.bigInt (2 ^ 256 - 2) :: []), ())
    ∧ ((∃ isApproved w2,
        checkApproved (mockWallet 50 0 1 (2 ^ 256 - 2) 100 200) (goString "0x01")
          (goString "0x7a250d5630B4cF539739dF2C5dAcb4c659F2488D")
          (goString "0xc7ad46e0b8a400bb3c915120d284aafba8fc4735") (World.start ())
          = .returned (.ok isApproved) w2
        ∧ (isApproved = true ↔ (2 ^ 256 - 2 : Int) ≥ maxApprove)
        ∧ ((2 ^ 256 - 2 : Int) = maxApprove - 1 → isApproved = false)
        ∧ ((2 ^ 256 - 2 : Int) = maxApprove → isApproved = true))
      ∧ maxApprove = 2 ^ 256 - 1) :=
  ⟨rfl, checkApproved_iff (mockWallet 50 0 1 (2 ^ 256 - 2) 100 200) (goString "0x01")
    (goString "0x7a250d5630B4cF539739dF2C5dAcb4c659F2488D")
    (goString "0xc7ad46e0b8a400bb3c915120d284aafba8fc4735") (World.start ()) (2 ^ 256 - 2) [] ()
    rfl⟩

/-- C7, on the code.  With `tokenA` of larger big-endian value than `tokenB` and reserves
`(100, 200)` returned by `getReserves`, the line logged by `queryTokensAmountInLp` carries
for `tokenA` the method value `EndForString` (the call parentheses are missing in that
branch), which shows no amount, and for `tokenB` the decimal of reserve 100. -/
theorem queryTokensAmountInLp_exchanged :
    ∀ Keccak256 : List Byte → Bytes32,
      beValue exchangedConfig.tokenA.bytes > beValue exchangedConfig.tokenB.bytes
      ∧ (queryTokensAmountInLp Keccak256 exchangedConfig (mockWallet 50 0 1 0 100 200)
          (World.start ())).world.logs
        = [⟨.Info, some "in liquid pool tokenA amount is: %s, tokenB amount is: %s\n",
            [.methodValue ⟨200, -18⟩, .decimal ⟨⟨100, -18⟩⟩]⟩]
      ∧ (LogArg.methodValue ⟨200, -18⟩).shown = none
      ∧ (LogArg.decimal ⟨⟨100, -18⟩⟩).shown = some ⟨100, -18⟩ := by
  intro Keccak256
  have hgt : beValue exchangedConfig.tokenA.bytes > beValue exchangedConfig.tokenB.bytes := by
    decide
  refine ⟨hgt, ?_, rfl, rfl⟩
  rw [queryTokensAmountInLp_run Keccak256 exchangedConfig (mockWallet 50 0 1 0 100 200)
    (World.start ()) 100 200 [.other "uint32"] () rfl]
  rw [if_pos hgt]
  rfl

theorem andThen_of_returned {α β : Type} (p : Prog σ α) (f : α → Prog σ β) (w w1 : World σ)
    (a : α) (h : p w = .returned a w1) : Prog.andThen p f w = f a w1 := by
  unfold Prog.andThen
  rw [h]

/-- C8, as stated, fails.  Over the mock wallet whose node fails every request, and
whatever the hash function, `main` issues four wallet calls: the before-swap reserve query
fails and `swap` is started all the same (its gas-price read is issued), and `swap` aborts
on that read and the after-swap reserve query is performed all the same. -/
theorem main_goes_on_after_failure :
    (fun Keccak256 : List Byte → Bytes32 =>
      (main Keccak256 sourceConfig downWallet (World.start ())).world.calls.map
        (fun c => (c.op.name, c.failed)))
    = fun _ =>
      [("InitRemote", false), ("CallContractConstant", true), ("SuggestGasPrice", true),
       ("CallContractConstant", true)] := by
  funext Keccak256
  rfl

/-- C8, amended.  A failure ends the function it occurs in, not the run.  In every run of
`main` in which the wallet is initialised and the first two phases return: `main` ends
with the after-swap reserve query, whatever failed before; and in each phase (before-swap
query, `swap`, after-swap query) no wallet call is issued after a failed one.  The same
holds for `swap` and `queryTokensAmountInLp` from any state, and a failing guard of `swap`
ends `swap` after its three reads. -/
theorem failure_ends_phase (Keccak256 : List Byte → Bytes32) (cfg : Config) (wallet : Wallet σ)
    (w w1 w2 w3 : World σ)
    (hinit : wallet.InitRemote cfg.rpcURL w = .returned none w1)
    (hquery : queryTokensAmountInLp Keccak256 cfg wallet (banner w1 ">>>>>>>> before swap")
      = .returned () w2)
    (hswap : swap Keccak256 cfg wallet (banner w2 ">>>>>>>> start swap") = .returned () w3) :
    main Keccak256 cfg wallet w
      = queryTokensAmountInLp Keccak256 cfg wallet (banner w3 ">>>>>>>> after swap")
    ∧ Tidy w1.calls w2
    ∧ Tidy w2.calls w3
    ∧ Tidy w3.calls (main Keccak256 cfg wallet w).world
    ∧ (∀ v : World σ, Tidy v.calls (queryTokensAmountInLp Keccak256 cfg wallet v).world)
    ∧ (∀ v : World σ, Tidy v.calls (swap Keccak256 cfg wallet v).world)
    ∧ (∀ (v : World σ) (gasPrice ethAmount tokenAmount : Int) (s1 s2 s3 : σ),
        wallet.suggestGasPrice v.chain = (.ok gasPrice, s1) →
        wallet.balance cfg.addr s1 = (.ok ethAmount, s2) →
        wallet.tokenBalance (cfg.tokenA.Hex Keccak256) cfg.addr s2 = (.ok tokenAmount, s3) →
        tokenAmount ≤ 0 ∨ ethAmount < gasPrice * 600000 →
        (swap Keccak256 cfg wallet v).world.calls = v.calls ++ swapReads Keccak256 cfg) := by
  have hq : ∀ v : World σ, Tidy v.calls (queryTokensAmountInLp Keccak256 cfg wallet v).world :=
    fun v => queryTokensAmountInLp_halts v.calls Keccak256 cfg wallet v ⟨[], by simp, by simp⟩
  have hs : ∀ v : World σ, Tidy v.calls (swap Keccak256 cfg wallet v).world :=
    fun v => swap_halts v.calls Keccak256 cfg wallet v ⟨[], by simp, by simp⟩
  have hmain : main Keccak256 cfg wallet w
      = queryTokensAmountInLp Keccak256 cfg wallet (banner w3 ">>>>>>>> after swap") := by
    unfold main Info
    simp only [bind_eq_andThen]
    rw [andThen_of_returned _ _ _ _ _ hinit]
    simp only [andThen_log]
    change Prog.andThen (queryTokensAmountInLp Keccak256 cfg wallet) _
      (banner w1 ">>>>>>>> before swap") = _
    rw [andThen_of_returned _ _ _ _ _ hquery]
    simp only [andThen_log]
    change Prog.andThen (swap Keccak256 cfg wallet) _ (banner w2 ">>>>>>>> start swap") = _
    rw [andThen_of_returned _ _ _ _ _ hswap]
    simp only [andThen_log]
    rfl
  refine ⟨hmain, ?_, ?_, ?_, hq, hs, ?_⟩
  · have := hq (banner w1 ">>>>>>>> before swap")
    rw [hquery] at this
    exact this
  · have := hs (banner w2 ">>>>>>>> start swap")
    rw [hswap] at this
    exact this
  · rw [hmain]
    exact hq (banner w3 ">>>>>>>> after swap")
  · intro v gasPrice ethAmount tokenAmount s1 s2 s3 hgas hbal htok hguard
    rw [swap_after_reads Keccak256 cfg wallet v gasPrice ethAmount tokenAmount s1 s2 s3
      hgas hbal htok]
    by_cases h1 : tokenAmount ≤ 0
    · rw [if_pos h1]; rfl
    · rw [if_neg h1]
      have h2 : ethAmount < gasPrice * 600000 := by
        rcases hguard with h | h
        · exact absurd h h1
        · exact h
      rw [if_pos h2]; rfl

/-- C8, amended, on the mock wallet whose node fails every request: the three phases all
return and `main` ends with the after-swap query. -/
theorem failure_ends_phase_witness :
    ∃ w1 w2 w3 : World Unit,
      downWallet.InitRemote sourceConfig.rpcURL (World.start ()) = .returned none w1
      ∧ queryTokensAmountInLp zeroHash sourceConfig downWallet
          (banner w1 ">>>>>>>> before swap") = .returned () w2
      ∧ swap zeroHash sourceConfig downWallet (banner w2 ">>>>>>>> start swap")
          = .returned () w3
      ∧ main zeroHash sourceConfig downWallet (World.start ())
          = queryTokensAmountInLp zeroHash sourceConfig downWallet
              (banner w3 ">>>>>>>> after swap")
      ∧ Tidy w1.calls w2 ∧ Tidy w2.calls w3 :=
  ⟨_, _, _, rfl, rfl, rfl,
    (failure_ends_phase zeroHash sourceConfig downWallet (World.start ()) _ _ _
      rfl rfl rfl).1,
    (failure_ends_phase zeroHash sourceConfig downWallet (World.start ()) _ _ _
      rfl rfl rfl).2.1,
    (failure_ends_phase zeroHash sourceConfig downWallet (World.start ()) _ _ _
      rfl rfl rfl).2.2.1⟩

/-- C9.  When the three reads of `swap` succeed with gas price `gasPrice`, native balance
`ethAmount` and a positive spend-token balance, `swap` stops with exactly these three
reads in its trace (no allowance read, no transaction built or sent) if and only if
`ethAmount < gasPrice * 300000 * 2`; in that case it returns after logging the gas-fee
line; otherwise it goes on to the allowance block, whose first call is the allowance
read; a balance equal to `gasPrice * 600000` goes on. -/
theorem swap_gas_fee_guard (Keccak256 : List Byte → Bytes32) (cfg : Config) (wallet : Wallet σ)
    (w : World σ) (gasPrice ethAmount tokenAmount : Int) (s1 s2 s3 : σ)
    (hgas : wallet.suggestGasPrice w.chain = (.ok gasPrice, s1))
    (hbal : wallet.balance cfg.addr s1 = (.ok ethAmount, s2))
    (htok : wallet.tokenBalance (cfg.tokenA.Hex Keccak256) cfg.addr s2 = (.ok tokenAmount, s3))
    (hpos : 0 < tokenAmount) :
    ((swap Keccak256 cfg wallet w).world.calls = w.calls ++ swapReads Keccak256 cfg
      ↔ ethAmount < gasPrice * 300000 * 2)
    ∧ (ethAmount < gasPrice * 600000 →
        swap Keccak256 cfg wallet w
          = .returned () (afterReads Keccak256 cfg w s3 gasPrice gasGuardLine))
    ∧ (¬ ethAmount < gasPrice * 600000 →
        swap Keccak256 cfg wallet w
          = swapFromAllowance Keccak256 cfg wallet gasPrice 300000
              (afterReads Keccak256 cfg w s3 gasPrice (balancesLine cfg ethAmount tokenAmount))
        ∧ ∃ failed rest, (swap Keccak256 cfg wallet w).world.calls
            = w.calls ++ swapReads Keccak256 cfg ++ ⟨allowanceRead Keccak256 cfg, failed⟩ :: rest)
    ∧ (ethAmount = gasPrice * 600000 →
        (swap Keccak256 cfg wallet w).world.calls ≠ w.calls ++ swapReads Keccak256 cfg) := by
  have hrun := swap_after_reads Keccak256 cfg wallet w gasPrice ethAmount tokenAmount s1 s2 s3
    hgas hbal htok
  have htk : ¬ tokenAmount ≤ 0 := by omega
  rw [if_neg htk] at hrun
  have habort : ethAmount < gasPrice * 600000 →
      swap Keccak256 cfg wallet w
        = .returned () (afterReads Keccak256 cfg w s3 gasPrice gasGuardLine) := by
    intro h
    rw [hrun, if_pos h]
  have hpass : ¬ ethAmount < gasPrice * 600000 →
      swap Keccak256 cfg wallet w
        = swapFromAllowance Keccak256 cfg wallet gasPrice 300000
            (afterReads Keccak256 cfg w s3 gasPrice (balancesLine cfg ethAmount tokenAmount))
      ∧ ∃ failed rest, (swap Keccak256 cfg wallet w).world.calls
          = w.calls ++ swapReads Keccak256 cfg ++ ⟨allowanceRead Keccak256 cfg, failed⟩ :: rest := by
    intro h
    rw [hrun, if_neg h]
    refine ⟨rfl, ?_⟩
    obtain ⟨failed, rest, hcalls⟩ :=
      (swapFromAllowance_cont Keccak256 cfg wallet gasPrice 300000).2
        (afterReads Keccak256 cfg w s3 gasPrice (balancesLine cfg ethAmount tokenAmount))
    exact ⟨failed, rest, hcalls⟩
  have hne : ¬ ethAmount < gasPrice * 600000 →
      (swap Keccak256 cfg wallet w).world.calls ≠ w.calls ++ swapReads Keccak256 cfg := by
    intro h heq
    obtain ⟨_, failed, rest, hcalls⟩ := hpass h
    rw [hcalls] at heq
    have := congrArg List.length heq
    simp at this
  refine ⟨⟨?_, ?_⟩, habort, hpass, ?_⟩
  · intro heq
    by_contra h
    exact hne (by omega) heq
  · intro h
    rw [habort (by omega)]
    rfl
  · intro h
    exact hne (by omega)

/-- C9 at `gasPrice = 50` and native balance `50 * 300000 * 2 - 1`: `swap` stops after
its three reads. -/
theorem swap_gas_fee_guard_witness :
    (mockWallet 50 (50 * 300000 * 2 - 1) 1 0 100 200).suggestGasPrice (World.start ()).chain
      = (.ok 50, ())
    ∧ (0 : Int) < 1
    ∧ (50 * 300000 * 2 - 1 : Int) < 50 * 300000 * 2
    ∧ (swap zeroHash sourceConfig (mockWallet 50 (50 * 300000 * 2 - 1) 1 0 100 200)
        (World.start ())).world.calls
      = (World.start ()).calls ++ swapReads zeroHash sourceConfig :=
  ⟨rfl, by decide, by decide,
    (swap_gas_fee_guard zeroHash sourceConfig (mockWallet 50 (50 * 300000 * 2 - 1) 1 0 100 200)
      (World.start ()) 50 (50 * 300000 * 2 - 1) 1 () () () rfl rfl rfl (by decide)).1.mpr
      (by decide)⟩

/-- C10.  When the three reads of `swap` succeed and the spend-token balance read is
`tokenAmount`, with `decimalTokenA = 18`: the human-readable balance is
`tokenAmount / 10^18` exactly; when it is `<= 0`, `swap` returns after logging the
spend-token line, with only the three reads in its trace (no transaction is built or
sent); for a non-negative balance this is the case exactly when `tokenAmount = 0`; and
for `tokenAmount >= 1` the guard is passed: `swap` goes on to the gas-fee guard. -/
theorem swap_spend_token_guard (Keccak256 : List Byte → Bytes32) (cfg : Config)
    (wallet : Wallet σ) (w : World σ) (gasPrice ethAmount tokenAmount : Int) (s1 s2 s3 : σ)
    (hdec : cfg.decimalTokenA = 18)
    (hgas : wallet.suggestGasPrice w.chain = (.ok gasPrice, s1))
    (hbal : wallet.balance cfg.addr s1 = (.ok ethAmount, s2))
    (htok : wallet.tokenBalance (cfg.tokenA.Hex Keccak256) cfg.addr s2 = (.ok tokenAmount, s3)) :
    (Decimal.StartString
        ((Decimal.Start tokenAmount).MustUnShiftedBy cfg.decimalTokenA).EndForString).toRat
      = (tokenAmount : ℚ) / 10 ^ 18
    ∧ ((tokenAmount : ℚ) / 10 ^ 18 ≤ 0 →
        swap Keccak256 cfg wallet w
          = .returned () (afterReads Keccak256 cfg w s3 gasPrice tokenGuardLine)
        ∧ (afterReads Keccak256 cfg w s3 gasPrice tokenGuardLine).calls
          = w.calls ++ swapReads Keccak256 cfg
        ∧ (swapReads Keccak256 cfg).map (fun c => c.op.name)
          = ["SuggestGasPrice", "Balance", "TokenBalance"])
    ∧ (0 ≤ tokenAmount → ((tokenAmount : ℚ) / 10 ^ 18 ≤ 0 ↔ tokenAmount = 0))
    ∧ (1 ≤ tokenAmount →
        ¬ ((tokenAmount : ℚ) / 10 ^ 18 ≤ 0)
        ∧ swap Keccak256 cfg wallet w
          = if ethAmount < gasPrice * 600000 then
              .returned () (afterReads Keccak256 cfg w s3 gasPrice gasGuardLine)
            else
              swapFromAllowance Keccak256 cfg wallet gasPrice 300000
                (afterReads Keccak256 cfg w s3 gasPrice
                  (balancesLine cfg ethAmount tokenAmount))) := by
  have hrun := swap_after_reads Keccak256 cfg wallet w gasPrice ethAmount tokenAmount s1 s2 s3
    hgas hbal htok
  refine ⟨?_, ?_, ?_, ?_⟩
  · rw [hdec]
    exact toRat_unshifted tokenAmount
  · intro h
    have h0 : tokenAmount ≤ 0 := (human_le_zero tokenAmount).mp h
    rw [hrun, if_pos h0]
    exact ⟨rfl, rfl, rfl⟩
  · intro h
    rw [human_le_zero]
    omega
  · intro h
    have h0 : ¬ tokenAmount ≤ 0 := by omega
    refine ⟨fun hc => h0 ((human_le_zero tokenAmount).mp hc), ?_⟩
    rw [hrun, if_neg h0]

/-- C10 at a spend-token balance of zero: `swap` stops after its three reads. -/
theorem swap_spend_token_guard_witness :
    sourceConfig.decimalTokenA = 18
    ∧ (mockWallet 50 (10 ^ 18) 0 0 100 200).tokenBalance
        (sourceConfig.tokenA.Hex zeroHash) sourceConfig.addr () = (.ok 0, ())
    ∧ ((0 : Int) : ℚ) / 10 ^ 18 ≤ 0
    ∧ swap zeroHash sourceConfig (mockWallet 50 (10 ^ 18) 0 0 100 200) (World.start ())
        = .returned () (afterReads zeroHash sourceConfig (World.start ()) () 50 tokenGuardLine)
    ∧ (afterReads zeroHash sourceConfig (World.start ()) () 50 tokenGuardLine).calls
        = (World.start ()).calls ++ swapReads zeroHash sourceConfig
    ∧ (swapReads zeroHash sourceConfig).map (fun c => c.op.name)
        = ["SuggestGasPrice", "Balance", "TokenBalance"] :=
  ⟨rfl, rfl, by norm_num,
    (swap_spend_token_guard zeroHash sourceConfig (mockWallet 50 (10 ^ 18) 0 0 100 200)
      (World.start ()) 50 (10 ^ 18) 0 () () () rfl rfl rfl rfl).2.1 (by norm_num)⟩

end Orchestration

/-! ### Claim C5 -/

/-- C5, as stated, fails: with the hex decoder as a parameter and `errors.Wrap` as in
pkg/errors, no hash function makes `GetCreate2Address` return a non-nil error whenever the
decoder fails on the literal.  A decoder that fails gives the zero address and a nil
error. -/
theorem GetCreate2Address_nil_error_on_failure :
    ¬ ∃ Keccak256 : List Byte → Bytes32,
      ∀ (DecodeString : GoString → List Byte × Option GoError)
        (factory tokenA tokenB : GoString),
        (DecodeString initCodeHashHex).2 ≠ none →
          (GetCreate2Address Keccak256 DecodeString [] factory tokenA tokenB).1.2 ≠ none := by
  rintro ⟨Keccak256, h⟩
  apply h (fun _ => ([], some GoError.ErrLength)) sourceConfig.factory
    (goString "0xc7ad46e0b8a400bb3c915120d284aafba8fc4735")
    (goString "0xd1822505796C4eba9379D5a8B4141573444042c6")
  · simp
  · rw [GetCreate2Address_failing_decoder]

/-- C5, amended.  Decoding the init-code-hash literal does not fail: `hex.DecodeString`
returns its 32 bytes and a nil error, so from every state of the cache and for all
arguments `GetCreate2Address` returns a nil error and a 20-byte address, and leaves a
cache of 32 bytes when it started from the empty one. -/
theorem GetCreate2Address_never_fails (Keccak256 : List Byte → Bytes32) (cache : List Byte)
    (factory tokenA tokenB : GoString) :
    hexDecodeString initCodeHashHex = (initCodeHash, none)
    ∧ initCodeHash.length = 32
    ∧ (GetCreate2Address Keccak256 hexDecodeString cache factory tokenA tokenB).1.2 = none
    ∧ (GetCreate2Address Keccak256 hexDecodeString cache factory tokenA tokenB).1.1.bytes.length
        = 20
    ∧ (GetCreate2Address Keccak256 hexDecodeString [] factory tokenA tokenB).2 = initCodeHash := by
  refine ⟨hexDecodeString_initCodeHashHex, by decide,
    GetCreate2Address_err_none Keccak256 cache factory tokenA tokenB, Address.size _, ?_⟩
  rw [GetCreate2Address_empty, GetCreate2Address_filled]

end UniswapDemo
